import Mathlib

/-!
Verification development for the heuristic financial-record importer of the
church-flow-leader repository (src/src/utils/fileProcessor.ts).

The importer consumes a decoded table of string cells (the spreadsheet decoder
is invoked with raw:false and the CSV decoder yields strings, so every cell of
the decoded table is a string; a missing/undefined cell behaves exactly like
the empty string in every operation the importer performs on it, so cells are
modelled as `String` with "" for empty).  Amounts are modelled as exact
rationals: every numeric literal and comparison the importer performs is
exact at the decimal values involved.

Each definition carries the name of the source function it embeds.
`processTable` embeds the shared row pipeline of `processExcelFile` and
`processCSVFile` (their per-row loops are textually identical); the current
date that the source obtains from `new Date()` as a fallback is passed in
explicitly as the `today` argument, so the time dependence of the source is
visible in the model.
-/

namespace ChurchFlow

abbrev Row := List String
abbrev Table := List (List String)

/-- Characters treated as whitespace by JS `String.prototype.trim` and the
regex class `\s` (the code points that occur in this development). -/
def jsWs (c : Char) : Bool :=
  c = ' ' || c = '\t' || c = '\n' || c = '\r' || c = '\x0b' || c = '\x0c' || c = ' '

/-- ASCII digit test, the JS regex class `\d`. -/
def isDigitChar (c : Char) : Bool := 48 ≤ c.toNat && c.toNat ≤ 57

/-- Numeric value of an ASCII digit character. -/
def digitVal (c : Char) : ℕ := c.toNat - 48

/-- Value of a list of ASCII digit characters read in base 10. -/
def digitsVal (l : List Char) : ℕ := l.foldl (fun a c => 10 * a + digitVal c) 0

/-- JS regex word character (`\w`), used for the word boundary `\b`. -/
def wordChar (c : Char) : Bool :=
  (48 ≤ c.toNat && c.toNat ≤ 57) || (65 ≤ c.toNat && c.toNat ≤ 90) ||
  (97 ≤ c.toNat && c.toNat ≤ 122) || c = '_'

/-- The JS regex class `[a-zA-ZÀ-ÿ]` (note `À-ÿ` is the raw code-point range
U+00C0..U+00FF). -/
def latinTextChar (c : Char) : Bool :=
  (65 ≤ c.toNat && c.toNat ≤ 90) || (97 ≤ c.toNat && c.toNat ≤ 122) ||
  (192 ≤ c.toNat && c.toNat ≤ 255)

/-- JS `toLowerCase` restricted to the Basic Latin and Latin-1 letters that can
occur in this importer's inputs and keyword tables. -/
def jsToLower (c : Char) : Char :=
  if 65 ≤ c.toNat && c.toNat ≤ 90 then Char.ofNat (c.toNat + 32)
  else if 192 ≤ c.toNat && c.toNat ≤ 222 && c.toNat ≠ 215 then Char.ofNat (c.toNat + 32)
  else c

/-- The composite `normalize("NFD").replace(/[̀-ͯ]/g, "")` on Latin-1:
each decomposable Latin letter is replaced by its base letter, every other
character (including æ ø ß ×, which NFD does not decompose) is left alone. -/
def deaccent (c : Char) : Char :=
  let n := c.toNat
  if 192 ≤ n && n ≤ 197 then 'A'
  else if n = 199 then 'C'
  else if 200 ≤ n && n ≤ 203 then 'E'
  else if 204 ≤ n && n ≤ 207 then 'I'
  else if n = 209 then 'N'
  else if 210 ≤ n && n ≤ 214 then 'O'
  else if 217 ≤ n && n ≤ 220 then 'U'
  else if n = 221 then 'Y'
  else if 224 ≤ n && n ≤ 229 then 'a'
  else if n = 231 then 'c'
  else if 232 ≤ n && n ≤ 235 then 'e'
  else if 236 ≤ n && n ≤ 239 then 'i'
  else if n = 241 then 'n'
  else if 242 ≤ n && n ≤ 246 then 'o'
  else if 249 ≤ n && n ≤ 252 then 'u'
  else if n = 253 || n = 255 then 'y'
  else c

def chars (s : String) : List Char := s.data

def ofChars (l : List Char) : String := String.mk l

/-- Contiguous-sublist test over character lists. -/
def listInfix (sub l : List Char) : Bool :=
  (List.range (l.length + 1)).any (fun i => (l.drop i).take sub.length = sub)

/-- JS `haystack.includes(needle)` (substring containment). -/
def jsIncludesStr (s sub : String) : Bool := listInfix (chars sub) (chars s)

/-- JS `trim` on a character list: drop whitespace from both ends. -/
def jsTrimChars (l : List Char) : List Char :=
  ((l.dropWhile jsWs).reverse.dropWhile jsWs).reverse

/-- JS `String(x).trim()`. -/
def jsTrim (s : String) : String := ofChars (jsTrimChars (chars s))

/-- Split a character list on a separator character, JS `str.split(sep)` for a
one-character separator. -/
def splitOnChar (sep : Char) : List Char → List (List Char)
  | [] => [[]]
  | c :: rest =>
    if c = sep then [] :: splitOnChar sep rest
    else
      match splitOnChar sep rest with
      | [] => [[c]]
      | g :: gs => (c :: g) :: gs

/-- JS `str.replace(x, y)` for one-character pattern: first occurrence only. -/
def replaceFirst (x y : Char) : List Char → List Char
  | [] => []
  | c :: rest => if c = x then y :: rest else c :: replaceFirst x y rest

/-- JS `str.replace(/x/g, "")` for a one-character pattern: remove all. -/
def removeAll (x : Char) (l : List Char) : List Char := l.filter (fun c => c ≠ x)

/-- JS `str.lastIndexOf(x)` (as an `Option`; the source only reads it when the
character is known to be present). -/
def lastIndexOfChar (x : Char) (l : List Char) : Option ℕ :=
  ((List.range l.length).filter (fun i => l.get? i = some x)).getLast?

/-- Exponent part of a JS numeric literal:  `e`/`E`, optional sign, digits.
Returns the exponent and the remaining input; consumes nothing unless at least
one exponent digit is present (mirroring `parseFloat`'s longest valid prefix). -/
def parseExpPart (l : List Char) : ℤ × List Char :=
  match l with
  | c :: rest =>
    if c = 'e' || c = 'E' then
      match rest with
      | s :: rest2 =>
        if s = '+' then
          let p := rest2.span isDigitChar
          if p.1 = [] then (0, l) else ((digitsVal p.1 : ℤ), p.2)
        else if s = '-' then
          let p := rest2.span isDigitChar
          if p.1 = [] then (0, l) else (-(digitsVal p.1 : ℤ), p.2)
        else
          let p := rest.span isDigitChar
          if p.1 = [] then (0, l) else ((digitsVal p.1 : ℤ), p.2)
      | [] => (0, l)
    else (0, l)
  | [] => (0, l)

/-- Unsigned mantissa of a JS decimal literal: digits, optionally a point and
more digits; at least one digit overall.  Returns the mantissa as the pair
(integer value of all mantissa digits, number of fraction digits) — the
denoted value is `n / 10 ^ f` — together with the remaining input. -/
def parseMantissa (l : List Char) : Option ((ℕ × ℕ) × List Char) :=
  let ip := l.span isDigitChar
  match ip.2 with
  | '.' :: r2 =>
    let fp := r2.span isDigitChar
    if ip.1 = [] && fp.1 = [] then none
    else some ((digitsVal (ip.1 ++ fp.1), fp.1.length), fp.2)
  | _ => if ip.1 = [] then none else some ((digitsVal ip.1, 0), ip.2)

/-- The rational `n / 10 ^ f * 10 ^ e`, assembled with a single `Rat.divInt`
over natural-number arithmetic (all the preceding Lean-side computation is
kernel-reducible, which keeps concrete evaluations of the parsers feasible;
the value is exactly the one denoted by the JS literal). -/
def scaledToRat (n f : ℕ) (e : ℤ) : ℚ :=
  if 0 ≤ e then Rat.divInt (Int.ofNat (n * 10 ^ e.toNat)) (Int.ofNat (10 ^ f))
  else Rat.divInt (Int.ofNat n) (Int.ofNat (10 ^ (f + (-e).toNat)))

/-- Signed JS decimal number with optional exponent, as a prefix parse. -/
def parseSignedNum (l : List Char) : Option (ℚ × List Char) :=
  match l with
  | '-' :: r =>
    (parseMantissa r).map (fun p =>
      let e := parseExpPart p.2
      (-scaledToRat p.1.1 p.1.2 e.1, e.2))
  | '+' :: r =>
    (parseMantissa r).map (fun p =>
      let e := parseExpPart p.2
      (scaledToRat p.1.1 p.1.2 e.1, e.2))
  | _ =>
    (parseMantissa l).map (fun p =>
      let e := parseExpPart p.2
      (scaledToRat p.1.1 p.1.2 e.1, e.2))

/-- JS `parseFloat`: skip leading whitespace, parse the longest valid decimal
prefix, `NaN` (modelled as `none`) when no prefix parses.  (`parseFloat` also
accepts the literal `Infinity`, but in the importer `parseFloat` is only ever
applied to strings already filtered to the characters `0-9 , . -`, so that
branch is unreachable and not modelled.) -/
def jsParseFloat (s : String) : Option ℚ :=
  match parseSignedNum ((chars s).dropWhile jsWs) with
  | some p => some p.1
  | none => none

def isHexDigit (c : Char) : Bool :=
  isDigitChar c || (65 ≤ c.toNat && c.toNat ≤ 70) || (97 ≤ c.toNat && c.toNat ≤ 102)

def hexDigitVal (c : Char) : ℕ :=
  if c.toNat ≤ 57 then c.toNat - 48
  else if c.toNat ≤ 70 then c.toNat - 55
  else c.toNat - 87

def hexVal (l : List Char) : ℕ := l.foldl (fun a c => 16 * a + hexDigitVal c) 0

/-- JS `Number(s)` for a string `s`: trims, empty means 0, otherwise the whole
remaining string must be a numeric literal (decimal with optional sign and
exponent, or a radix literal), else `NaN` (modelled as `none`).  The literal
`Infinity` is modelled as `none`: every use in the importer (`parseDate`'s
spreadsheet-serial branch and `isLikelyDate`'s range test) treats an infinite
value and `NaN` identically, so the model is observationally faithful. -/
def jsNumber (s : String) : Option ℚ :=
  let t := jsTrimChars (chars s)
  if t = [] then some 0
  else
    match t with
    | '0' :: c :: rest =>
      if c = 'x' || c = 'X' then
        if rest ≠ [] && rest.all isHexDigit then some ((hexVal rest : ℚ)) else none
      else
        match parseSignedNum t with
        | some (v, []) => some v
        | _ => none
    | _ =>
      match parseSignedNum t with
      | some (v, []) => some v
      | _ => none

/-- True when the list is all ASCII digits and its length lies in `[lo, hi]`;
matches a regex group `\d{lo,hi}` spanning a full split segment. -/
def digitRun (l : List Char) (lo hi : ℕ) : Bool :=
  l.all isDigitChar && lo ≤ l.length && l.length ≤ hi

/-- Source `isLikelyDate`: anchored date-shaped regexes, then the Excel
serial-number range test `num > 25000 && num < 60000`. -/
def isLikelyDate (s : String) : Bool :=
  if s = "" then false
  else
    let t := jsTrimChars (chars s)
    (match splitOnChar '/' t with
     | [a, b, c] => digitRun a 1 2 && digitRun b 1 2 && digitRun c 2 4
     | _ => false) ||
    (match splitOnChar '-' t with
     | [a, b, c] =>
       (digitRun a 4 4 && digitRun b 2 2 && digitRun c 2 2) ||
       (digitRun a 1 2 && digitRun b 1 2 && digitRun c 2 4)
     | _ => false) ||
    (match splitOnChar '.' t with
     | [a, b, c] => digitRun a 1 2 && digitRun b 1 2 && digitRun c 2 4
     | _ => false) ||
    (t.all isDigitChar && t.length = 8) ||
    (match jsNumber (ofChars t) with
     | some n => decide ((25000 : ℚ) < n) && decide (n < (60000 : ℚ))
     | none => false)

/-- Gregorian civil date from a day count, with day 0 = 0000-03-01 of the
proleptic Gregorian calendar (the classic era-based conversion used to embed
`new Date(1900, 0, 1); d.setDate(...)` of the serial-date decoder). -/
def civilFromDays (z : ℕ) : ℕ × ℕ × ℕ :=
  let era := z / 146097
  let doe := z % 146097
  let yoe := (doe - doe / 1460 + doe / 36524 - doe / 146096) / 365
  let y := yoe + era * 400
  let doy := doe - (365 * yoe + yoe / 4 - yoe / 100)
  let mp := (5 * doy + 2) / 153
  let d := doy - (153 * mp + 2) / 5 + 1
  let m := if mp < 10 then mp + 3 else mp - 9
  (if m ≤ 2 then y + 1 else y, m, d)

/-- `XLSX.SSF.parse_date_code` restricted to the fields the importer reads
(`y`, `m`, `d`), with the default options (no `date1904`, no `b2` calendar):
reject codes outside `[0, 2958465]`; split integral day and fractional time;
round a time fraction within 1e-6 of a day boundary up to the next day;
serial 60 is the fictitious 1900-02-29, serial 0 is 1900-01-00, and codes
above 60 are shifted down one day (the Lotus leap-year bug), after which
serial 1 is 1900-01-01.  (The integer parts are taken with truncating
division, which agrees with the source's `(v|0)` and `Math.floor` because the
guard has ensured `v ≥ 0`; the time fraction `u` is likewise nonnegative, so
`Math.abs(u) < 1e-6` is embedded as `u < 1e-6`.) -/
def parseDateCode (v : ℚ) : Option (ℕ × ℕ × ℕ) :=
  if v > 2958465 || v < 0 then none
  else
    let den : ℤ := Int.ofNat v.den
    let date0 : ℕ := (v.num / den).toNat
    let tqn : ℤ := 86400 * (v.num - Int.ofNat date0 * den)
    let time0 : ℕ := (tqn / den).toNat
    let u : ℚ := Rat.divInt (tqn - Int.ofNat time0 * den) den
    let u := if u < Rat.divInt 1 1000000 then 0 else u
    let date := if u > Rat.divInt 9999 10000 then (if time0 + 1 = 86400 then date0 + 1 else date0) else date0
    if date = 60 then some (1900, 2, 29)
    else if date = 0 then some (1900, 1, 0)
    else
      let d := if date > 60 then date - 1 else date
      some (civilFromDays (d - 1 + 693901))

/-- The decimal digit character of `n % 10`. -/
def digitCh (n : ℕ) : Char :=
  match n % 10 with
  | 0 => '0' | 1 => '1' | 2 => '2' | 3 => '3' | 4 => '4'
  | 5 => '5' | 6 => '6' | 7 => '7' | 8 => '8' | _ => '9'

/-- Two-digit zero-padded decimal rendering of `n % 100`
(`String(n).padStart(2, "0")` for `n < 100`). -/
def mk2 (n : ℕ) : List Char := [digitCh (n / 10), digitCh n]

/-- Four-digit decimal rendering of `n % 10000`. -/
def mk4 (n : ℕ) : List Char :=
  [digitCh (n / 1000), digitCh (n / 100), digitCh (n / 10), digitCh n]

/-- `padStart(2, "0")` on a captured digit group. -/
def padTwo (l : List Char) : List Char :=
  if l.length = 0 then ['0', '0'] else if l.length = 1 then '0' :: l else l

/-- The seven anchored regex formats of source `parseDate`, in source order.
Each yields the captured (year, month, day) digit strings exactly as the
source's `format` callback assembles them. -/
def dateFormatAttempts (t : List Char) : List (Option (List Char × List Char × List Char)) :=
  [ (match splitOnChar '/' t with
     | [a, b, c] => if digitRun a 2 2 && digitRun b 2 2 && digitRun c 4 4 then some (c, b, a) else none
     | _ => none),
    (match splitOnChar '/' t with
     | [a, b, c] => if digitRun a 1 2 && digitRun b 1 2 && digitRun c 4 4 then some (c, padTwo b, padTwo a) else none
     | _ => none),
    (match splitOnChar '-' t with
     | [a, b, c] => if digitRun a 4 4 && digitRun b 2 2 && digitRun c 2 2 then some (a, b, c) else none
     | _ => none),
    (match splitOnChar '-' t with
     | [a, b, c] => if digitRun a 2 2 && digitRun b 2 2 && digitRun c 4 4 then some (c, b, a) else none
     | _ => none),
    (match splitOnChar '.' t with
     | [a, b, c] => if digitRun a 2 2 && digitRun b 2 2 && digitRun c 4 4 then some (c, b, a) else none
     | _ => none),
    (if t.all isDigitChar && t.length = 8 then some (t.take 4, (t.drop 4).take 2, t.drop 6) else none),
    (if t.all isDigitChar && t.length = 8 then some (t.drop 4, (t.drop 2).take 2, t.take 2) else none) ]

/-- Source validation `y >= 1900 && y <= 2100 && m >= 1 && m <= 12 && d >= 1 && d <= 31`. -/
def validYMD (y m d : ℕ) : Bool :=
  1900 ≤ y && y ≤ 2100 && 1 ≤ m && m ≤ 12 && 1 ≤ d && d ≤ 31

/-- First format whose captured components validate wins; an invalid match
falls through to the next pattern, exactly as the source's `for` loop does. -/
def firstValidFmt : List (Option (List Char × List Char × List Char)) → Option (List Char)
  | [] => none
  | none :: rest => firstValidFmt rest
  | some (ys, ms, ds) :: rest =>
    if validYMD (digitsVal ys) (digitsVal ms) (digitsVal ds)
    then some (ys ++ '-' :: ms ++ '-' :: ds)
    else firstValidFmt rest

/-- The final `new Date(str)` last resort of source `parseDate`.  ECMA-262
leaves non-ISO date strings implementation-defined; every string that reaches
this fallback in the theorems of this development (letter-only strings and
parenthesised strings, which real engines reject as Invalid Date) fails it,
so the stage is modelled as the always-failing parse.  The surrounding
structure of `parseDate` (validity test and the `getFullYear() >= 1900`
guard) is kept so the model branches exactly as the source does. -/
def jsNativeDate (_cell : String) : Option (ℕ × ℕ × ℕ) := none

/-- Source `parseDate` on a string cell (the `instanceof Date` branch cannot
trigger for the string cells the decoders produce): falsy check, trim, the
seven regex formats with validation, the Excel serial branch guarded by
`!isNaN(Number(dateStr))` and `excelDate.y >= 1900`, then the native-Date
last resort guarded by `getFullYear() >= 1900`.  Returns the rendered
`YYYY-MM-DD` string or `none`. -/
def parseDate (cell : String) : Option String :=
  if cell = "" then none
  else
    let t := jsTrimChars (chars cell)
    match firstValidFmt (dateFormatAttempts t) with
    | some r => some (ofChars r)
    | none =>
      match jsNumber cell with
      | some v =>
        (match parseDateCode v with
         | some (y, m, d) =>
           if 1900 ≤ y then some (ofChars (mk4 y ++ '-' :: mk2 m ++ '-' :: mk2 d))
           else
             match jsNativeDate cell with
             | some (y2, m2, d2) => if 1900 ≤ y2 then some (ofChars (mk4 y2 ++ '-' :: mk2 m2 ++ '-' :: mk2 d2)) else none
             | none => none
         | none =>
           match jsNativeDate cell with
           | some (y2, m2, d2) => if 1900 ≤ y2 then some (ofChars (mk4 y2 ++ '-' :: mk2 m2 ++ '-' :: mk2 d2)) else none
           | none => none)
      | none =>
        match jsNativeDate cell with
        | some (y2, m2, d2) => if 1900 ≤ y2 then some (ofChars (mk4 y2 ++ '-' :: mk2 m2 ++ '-' :: mk2 d2)) else none
        | none => none

/-- Character set of the currency-strip regex `/^[R$€£¥\s]+|[R$€£¥\s]+$/gi`
(case-insensitivity affects only the letter R). -/
def curChar (c : Char) : Bool :=
  c = 'R' || c = 'r' || c = '$' || c = '€' || c = '£' || c = '¥' || jsWs c

/-- Strip the currency/whitespace run from both ends of the string. -/
def stripCurrencyChars (l : List Char) : List Char :=
  ((l.dropWhile curChar).reverse.dropWhile curChar).reverse

def isDChar (c : Char) : Bool := c = 'D' || c = 'd'

def headWord : List Char → Bool
  | [] => false
  | c :: _ => wordChar c

/-- Scan for the regex `/\bD\b/i`: a `D` or `d` whose neighbours (tracked via
the word-character status `pw` of the previous character) are not word
characters. -/
def stdDAux : Bool → List Char → Bool
  | _, [] => false
  | pw, c :: rest => (isDChar c && !pw && !headWord rest) || stdDAux (wordChar c) rest

/-- The regex test `/\bD\b/i.test(s)`: the string contains a standalone
letter D at word boundaries. -/
def hasStandaloneD (s : String) : Bool := stdDAux false (chars s)

/-- The trimmed-and-currency-stripped form of an amount cell, on which the
source computes the negativity markers. -/
def strippedOf (cell : String) : List Char :=
  stripCurrencyChars (jsTrimChars (chars cell))

/-- Source negativity detection: `str.includes("(") || str.startsWith("-") ||
/\bD\b/i.test(str)` on the currency-stripped string. -/
def negMark (cell : String) : Bool :=
  let t := strippedOf cell
  t.contains '(' || (match t with | '-' :: _ => true | _ => false) || stdDAux false t

/-- The two removal passes `replace(/[()]/g, "")` and `replace(/[^\d,.-]/g, "")`:
keep only digits, comma, period and minus. -/
def cleanedOf (cell : String) : List Char :=
  (strippedOf cell).filter (fun c => isDigitChar c || c = ',' || c = '.' || c = '-')

/-- Source decimal-vs-thousands disambiguation: when both `,` and `.` occur,
the later one is the decimal separator; when only `,` occurs, it is decimal
exactly when the split yields two parts and the second has at most two
characters; otherwise commas are thousands separators and are removed. -/
def sepStage (l : List Char) : List Char :=
  if l.contains ',' && l.contains '.' then
    match lastIndexOfChar ',' l, lastIndexOfChar '.' l with
    | some ci, some di =>
      if di < ci then replaceFirst ',' '.' (removeAll '.' l)
      else removeAll ',' l
    | _, _ => l
  else if l.contains ',' then
    match splitOnChar ',' l with
    | [_, p2] => if p2.length ≤ 2 then replaceFirst ',' '.' l else removeAll ',' l
    | _ => removeAll ',' l
  else l

/-- `Math.abs` on a rational. -/
def qabs (a : ℚ) : ℚ := if a < 0 then -a else a

/-- Source `parseAmountFlexible` on a string cell: empty-cell check, trim,
currency strip, negativity markers, character filter, separator
disambiguation, `parseFloat`, and finally `isNegative ? -Math.abs(a) : a`. -/
def parseAmountFlexible (cell : String) : Option ℚ :=
  if cell = "" then none
  else
    match jsParseFloat (ofChars (sepStage (cleanedOf cell))) with
    | none => none
    | some a => some (if negMark cell then -qabs a else a)

/-! ## Column resolution (source `findColumnIndex`, `analyzeColumnContent`,
`autoDetectColumns`) -/

def dateColumns : List String :=
  ["data", "date", "dt", "fecha", "datum", "dia", "day",
   "data_lancamento", "data_transacao", "dt_lanc", "dt_mov",
   "data_movimento", "data_pgto", "data_pag", "vencimento"]

def descriptionColumns : List String :=
  ["descrição", "descricao", "description", "histórico", "historico",
   "history", "memo", "narration", "finalidade", "observacao", "obs",
   "observações", "detalhe", "detalhes", "motivo", "referencia",
   "lancamento", "lançamento", "item", "produto", "servico", "serviço"]

def amountColumns : List String :=
  ["valor", "amount", "value", "montante", "total", "quantia",
   "vl", "vlr", "preco", "preço", "price", "custo", "cost",
   "entrada", "saida", "saída", "credito", "crédito", "debito", "débito",
   "receita", "despesa", "pagamento", "recebimento"]

def typeColumns : List String :=
  ["tipo", "type", "natureza", "category", "categoria",
   "classificacao", "classificação", "operacao", "operação",
   "movimento", "mov", "d/c", "dc", "entrada_saida"]

def donorColumns : List String :=
  ["doador", "donor", "nome", "name", "membro", "member",
   "pessoa", "cliente", "fornecedor", "pagador", "beneficiario",
   "origem", "destinatario", "responsavel"]

/-- The header normalisation
`toLowerCase().trim().normalize("NFD").replace(/[̀-ͯ]/g,"").replace(/[^a-z0-9]/g,"")`
(the trim is subsumed by the final filter, which keeps only `a-z0-9`). -/
def normAlnum (s : String) : String :=
  ofChars (((chars s).map (fun c => deaccent (jsToLower c))).filter
    (fun c => isDigitChar c || (97 ≤ c.toNat && c.toNat ≤ 122)))

/-- Source `findColumnIndex`: for each candidate name in order, first an exact
normalised match over the headers, then a containment match (in either
direction); `none` embeds the source's `-1`. -/
def findColumnIndex (headers : List String) (possibleNames : List String) : Option ℕ :=
  let nh := headers.map normAlnum
  possibleNames.findSome? (fun name =>
    let n := normAlnum name
    match nh.findIdx? (fun h => h = n) with
    | some i => some i
    | none => nh.findIdx? (fun h => jsIncludesStr h n || jsIncludesStr n h))

structure ColAnalysis where
  isDate : Bool
  isNumeric : Bool
  isText : Bool
  hasNegatives : Bool

/-- Source `analyzeColumnContent`: sample rows 1 to `min(rows,20)-1` of one
column, skip empty cells, and classify the column by the fraction of samples
that look like dates, parse as flexible amounts, or carry a letter run.  The
fractions `count / totalSamples > 0.5` are formed with `Rat.divInt`, which for
the guarded positive denominator is exactly the source's division. -/
def analyzeColumnContent (data : Table) (colIndex : ℕ) : ColAnalysis :=
  let samples := ((List.range (min data.length 20)).drop 1).filterMap (fun i =>
    match (data.get? i).bind (fun r => r.get? colIndex) with
    | some c => if c = "" then none else some (jsTrim c)
    | none => none)
  let total := samples.length
  let dateCount := (samples.filter (fun s => isLikelyDate s)).length
  let amounts := samples.map (fun s => parseAmountFlexible s)
  let numericCount := (amounts.filter (fun a => a.isSome)).length
  let negativeCount := (amounts.filter (fun a =>
    match a with | some v => decide (v < 0) | none => false)).length
  let textCount := (samples.filter (fun s =>
    (chars s).any latinTextChar && 2 < s.length)).length
  { isDate := 0 < total && decide (Rat.divInt 1 2 < Rat.divInt (Int.ofNat dateCount) (Int.ofNat total)),
    isNumeric := 0 < total && decide (Rat.divInt 1 2 < Rat.divInt (Int.ofNat numericCount) (Int.ofNat total)),
    isText := 0 < total && decide (Rat.divInt 1 2 < Rat.divInt (Int.ofNat textCount) (Int.ofNat total)),
    hasNegatives := 0 < negativeCount }

structure ColumnIdx where
  dateIdx : Option ℕ
  descIdx : Option ℕ
  amountIdx : Option ℕ
  typeIdx : Option ℕ
  donorIdx : Option ℕ
deriving DecidableEq

/-- Average cell-string length of column `col` over data rows 1 to
`min(rows,10)-1`, counting only truthy cells (source inner loop of the
description fallback in `autoDetectColumns`). -/
def avgTextLen (data : Table) (col : ℕ) : ℚ :=
  let lens := ((List.range (min data.length 10)).drop 1).filterMap (fun i =>
    match (data.get? i).bind (fun r => r.get? col) with
    | some c => if c = "" then none else some c.length
    | none => none)
  if lens.length = 0 then 0 else Rat.divInt (Int.ofNat lens.sum) (Int.ofNat lens.length)

/-- Source `autoDetectColumns`: header-name matching per role, then the
content-based fallback for date (first date-like column), amount (first
numeric, non-date column) and description (text-like column, distinct from
the date and amount columns, with the greatest average text length — strictly
positive, since the running maximum starts at 0). -/
def autoDetectColumns (headers : List String) (data : Table) : ColumnIdx :=
  let dateIdx0 := findColumnIndex headers dateColumns
  let descIdx0 := findColumnIndex headers descriptionColumns
  let amountIdx0 := findColumnIndex headers amountColumns
  let typeIdx0 := findColumnIndex headers typeColumns
  let donorIdx0 := findColumnIndex headers donorColumns
  let analyses := (List.range headers.length).map (fun i => (i, analyzeColumnContent data i))
  let dateIdx := match dateIdx0 with
    | some i => some i
    | none => (analyses.find? (fun a => a.2.isDate)).map (fun a => a.1)
  let amountIdx := match amountIdx0 with
    | some i => some i
    | none => (analyses.find? (fun a => a.2.isNumeric && !a.2.isDate)).map (fun a => a.1)
  let descIdx := match descIdx0 with
    | some i => some i
    | none =>
      let textCols := analyses.filter (fun a =>
        a.2.isText && some a.1 ≠ dateIdx && some a.1 ≠ amountIdx)
      (textCols.foldl (fun (acc : Option ℕ × ℚ) a =>
        let avg := avgTextLen data a.1
        if acc.2 < avg then (some a.1, avg) else acc) (none, 0)).1
  { dateIdx := dateIdx, descIdx := descIdx, amountIdx := amountIdx,
    typeIdx := typeIdx0, donorIdx := donorIdx0 }

/-! ## Transaction classification (source `detectType`, `detectCategory`) -/

inductive TType where
  | income
  | expense
  | unknownT
deriving DecidableEq

/-- The `toLowerCase().normalize("NFD").replace(/[̀-ͯ]/g,"")` normalisation
used on type values and descriptions (no alphanumeric filter here). -/
def normFold (s : String) : String := ofChars ((chars s).map (fun c => deaccent (jsToLower c)))

def incomePatterns : List String :=
  ["receita", "entrada", "income", "credit", "credito", "c",
   "dizimo", "dízimo", "oferta", "doacao", "doação", "contribuicao",
   "recebimento", "deposito", "depósito", "recebido", "rec"]

def expensePatterns : List String :=
  ["despesa", "saida", "saída", "expense", "debit", "debito", "débito", "d",
   "pagamento", "pago", "compra", "transferencia", "transf", "pag"]

def incomeKeywords : List String :=
  ["dizimo", "oferta", "doacao", "contribuicao", "receita",
   "recebimento", "deposito", "entrada", "credito", "recebido",
   "arrecadacao", "coleta", "campanha", "projeto especial"]

def expenseKeywords : List String :=
  ["despesa", "pagamento", "conta", "aluguel", "salario", "compra",
   "fornecedor", "manutencao", "luz", "agua", "telefone", "internet",
   "combustivel", "transporte", "material", "equipamento", "taxa",
   "imposto", "debito", "transferencia", "pago", "saida"]

/-- The explicit-type branch of source `detectType` (`if (typeValue) { ... }`):
pattern containment or equality against the raw curated lists on the
normalised type value; `none` when the branch decides nothing. -/
def detectTypeFromValue (typeValue : String) : Option TType :=
  if typeValue ≠ "" then
    if incomePatterns.any (fun p => jsIncludesStr (normFold typeValue) p || normFold typeValue = p)
    then some TType.income
    else if expensePatterns.any (fun p => jsIncludesStr (normFold typeValue) p || normFold typeValue = p)
    then some TType.expense
    else none
  else none

/-- Source `detectType`: explicit type text first, then the amount sign, then
keyword scan of the description, then the positive-amount default to income,
`unknown` otherwise. -/
def detectType (description : String) (amount : ℚ) (typeValue : String) : TType :=
  match detectTypeFromValue typeValue with
  | some t => t
  | none =>
    if amount < 0 then TType.expense
    else if incomeKeywords.any (fun k => jsIncludesStr (normFold description) k) then TType.income
    else if expenseKeywords.any (fun k => jsIncludesStr (normFold description) k) then TType.expense
    else if 0 < amount then TType.income
    else TType.unknownT

/-- Source `detectCategory` (only ever called with a resolved income/expense
type; the `unknownT` constructor falls into the expense arm, matching the
source's `else`, but is unreachable from the pipeline). -/
def detectCategory (description : String) (t : TType) : String :=
  let desc := normFold description
  match t with
  | TType.income =>
    if jsIncludesStr desc "dizimo" || jsIncludesStr desc "dízimo" then "tithe"
    else if jsIncludesStr desc "oferta" || jsIncludesStr desc "coleta" then "offering"
    else if jsIncludesStr desc "projeto" || jsIncludesStr desc "campanha" || jsIncludesStr desc "especial" then "special_project"
    else if jsIncludesStr desc "campanha" then "campaign"
    else "offering"
  | _ =>
    if jsIncludesStr desc "manutencao" || jsIncludesStr desc "reparo" || jsIncludesStr desc "conserto" then "maintenance"
    else if jsIncludesStr desc "luz" || jsIncludesStr desc "energia" || jsIncludesStr desc "agua" ||
            jsIncludesStr desc "telefone" || jsIncludesStr desc "internet" || jsIncludesStr desc "gas" then "utilities"
    else if jsIncludesStr desc "salario" || jsIncludesStr desc "pastor" || jsIncludesStr desc "funcionario" then "salaries"
    else if jsIncludesStr desc "evento" || jsIncludesStr desc "culto" || jsIncludesStr desc "celebracao" then "events"
    else if jsIncludesStr desc "missao" || jsIncludesStr desc "missionario" || jsIncludesStr desc "evangelismo" then "missions"
    else if jsIncludesStr desc "material" || jsIncludesStr desc "escritorio" || jsIncludesStr desc "limpeza" then "supplies"
    else "other"

/-! ## Description synthesis (source `buildDescription`) -/

/-- The regex `/^[\d\s-]+$/` (purely numeric/whitespace/dash, nonempty). -/
def genericNumeric (s : String) : Bool :=
  chars s ≠ [] && (chars s).all (fun c => isDigitChar c || jsWs c || c = '-')

def joinSep (sep : String) : List String → String
  | [] => ""
  | [x] => x
  | x :: rest => x ++ sep ++ joinSep sep rest

def enumFrom : ℕ → List α → List (ℕ × α)
  | _, [] => []
  | k, a :: l => (k, a) :: enumFrom (k + 1) l

/-- Source `buildDescription`: take the resolved description cell; if it is
shorter than 3 characters or purely numeric, gather the other cells of the
row that are neither date-like nor amount-parseable and are text-bearing
(length > 3 with a letter), joined by " - "; fall back to the fixed sentinel
"Sem descrição" when the result is still empty. -/
def buildDescription (row : Row) (descIdx : Option ℕ) : String :=
  let description := match descIdx with
    | some k => jsTrim ((row.get? k).getD "")
    | none => ""
  let description :=
    if description.length < 3 || genericNumeric description then
      let info := (enumFrom 0 row).filterMap (fun p =>
        if some p.1 = descIdx then none
        else
          let cell := jsTrim p.2
          if isLikelyDate cell || (parseAmountFlexible cell).isSome then none
          else if 3 < cell.length && (chars cell).any latinTextChar then some cell
          else none)
      if info ≠ [] then joinSep " - " info else description
    else description
  if description = "" then "Sem descrição" else description

/-! ## Header-row location (the header scan shared verbatim by
`processExcelFile` and `processCSVFile`) -/

/-- A row qualifies as a header row when it has at least two non-empty cells
and `textCount >= nonEmpty * 0.5`, where `textCount` counts the non-empty
cells that are neither date-like nor amount-parseable.  The `* 0.5`
comparison is formed with `Rat.divInt`, the exact value of the source's
floating comparison at these magnitudes. -/
def headerQualifies (row : Row) : Bool :=
  2 ≤ (row.filter (fun c => c ≠ "")).length &&
  decide (Rat.divInt (Int.ofNat (row.filter (fun c => c ≠ "")).length) 2 ≤
    Rat.divInt (Int.ofNat (row.filter (fun c =>
      c ≠ "" && !isLikelyDate c && (parseAmountFlexible c).isNone)).length) 1)

/-- The source's scan loop with `break`: first qualifying index wins. -/
def findHeaderRowGo (data : Table) : List ℕ → ℕ
  | [] => 0
  | i :: rest => if headerQualifies ((data.get? i).getD []) then i else findHeaderRowGo data rest

/-- Source header-row location: scan the first `min(rows, 5)` rows, default 0. -/
def findHeaderRow (data : Table) : ℕ :=
  findHeaderRowGo data (List.range (min data.length 5))

/-! ## The row pipeline (the per-row loop shared verbatim by
`processExcelFile` and `processCSVFile` on the decoded table) -/

structure ParsedRecord where
  date : String
  description : String
  amount : ℚ
  type : TType
  category : String
  donor : Option String
  rawData : Row
deriving DecidableEq

structure RowError where
  row : ℕ
  message : String
deriving DecidableEq

structure ParseResult where
  records : List ParsedRecord
  errors : List RowError
  headers : List String
  totalIncome : ℚ
  totalExpense : ℚ
deriving DecidableEq

/-- Date resolution for one row: the resolved date column first, then the
full-row scan (`for (const cell of row)` with the first parse winning). -/
def dateResolve (cols : ColumnIdx) (row : Row) : Option String :=
  match (match cols.dateIdx with
         | some k => parseDate ((row.get? k).getD "")
         | none => none) with
  | some d => some d
  | none => row.findSome? parseDate

/-- Amount resolution for one row: the resolved amount column first, then the
full-row scan that accepts the first parseable cell that does not look like a
date. -/
def amountResolve (cols : ColumnIdx) (row : Row) : Option ℚ :=
  match (match cols.amountIdx with
         | some k => parseAmountFlexible ((row.get? k).getD "")
         | none => none) with
  | some a => some a
  | none =>
    row.findSome? (fun c =>
      match parseAmountFlexible c with
      | some a => if isLikelyDate c then none else some a
      | none => none)

/-- The source's `row.every(cell => !cell)` guard together with
`!row || row.length === 0`. -/
def rowEmptyish (row : Row) : Bool := row.isEmpty || row.all (fun c => c = "")

/-- JS `a || b` on strings (used for the `category || default` fallback, with
"" embedding `undefined`). -/
def strOr (a b : String) : String := if a = "" then b else a

/-- What the loop body does with one data row: skip it, record an error
carrying the 1-based original row number, or emit a record.  The `emit`
outcome also carries the classification `pre` before the unknown-to-income
mapping, because the running totals test that value. -/
inductive RowOutcome where
  | skip
  | errAt (n : ℕ)
  | emit (pre : TType) (r : ParsedRecord)
deriving DecidableEq

/-- The explicit type-column value the loop reads for a row
(`typeIdx >= 0 ? String(row[typeIdx] || "") : ""`). -/
def typeValueOf (cols : ColumnIdx) (row : Row) : String :=
  match cols.typeIdx with
  | some k => (row.get? k).getD ""
  | none => ""

/-- The donor-column value the loop reads for a row
(`donorIdx >= 0 ? String(row[donorIdx] || "").trim() : ""`). -/
def donorOf (cols : ColumnIdx) (row : Row) : String :=
  match cols.donorIdx with
  | some k => jsTrim ((row.get? k).getD "")
  | none => ""

/-- One iteration of the source's per-row loop at original row index `i`:
empty-row skip; date and amount resolution with their fallbacks; skip when
both date and amount are missing; current-date fallback for a missing date;
error for a missing or zero amount; otherwise classification and record
construction (`Math.abs` on the amount, unknown mapped to income, category
default, empty donor dropped).  The description, type value and donor reads
of the loop body appear through the named helpers `buildDescription`,
`typeValueOf` and `donorOf`; they are pure, so hoisting them changes nothing.
Past the `amount === null || amount === 0` check the source's `amount`
variable is known non-null, which the embedding renders as `Option.getD 0`
(the default is unreachable). -/
def processRow (cols : ColumnIdx) (today : String) (i : ℕ) (row : Row) : RowOutcome :=
  if rowEmptyish row then RowOutcome.skip
  else if (dateResolve cols row).isNone && (amountResolve cols row).isNone then RowOutcome.skip
  else if (amountResolve cols row).isNone || amountResolve cols row = some 0 then
    RowOutcome.errAt (i + 1)
  else
    let a := (amountResolve cols row).getD 0
    let description := buildDescription row cols.descIdx
    let ty := detectType description a (typeValueOf cols row)
    RowOutcome.emit ty
      { date := (dateResolve cols row).getD today,
        description := description,
        amount := qabs a,
        type := if ty = TType.unknownT then TType.income else ty,
        category := strOr
          (if ty ≠ TType.unknownT then detectCategory description ty else "")
          (if ty = TType.income || ty = TType.unknownT then "offering" else "other"),
        donor := if donorOf cols row = "" then none else some (donorOf cols row),
        rawData := row }

/-- Error message pushed by the loop for an invalid or missing amount. -/
def invalidAmountMsg : String := "Valor inválido ou ausente"

/-- Folding one row outcome into the accumulated result, exactly as the loop
pushes, accumulates the totals (on the pre-mapping type), and continues. -/
def stepResult (acc : ParseResult) (o : RowOutcome) : ParseResult :=
  match o with
  | RowOutcome.skip => acc
  | RowOutcome.errAt n =>
    { acc with errors := acc.errors ++ [{ row := n, message := invalidAmountMsg }] }
  | RowOutcome.emit pre r =>
    { acc with
      records := acc.records ++ [r],
      totalIncome := acc.totalIncome + (if pre = TType.income then r.amount else 0),
      totalExpense := acc.totalExpense + (if pre = TType.expense then r.amount else 0) }

/-- The trimmed header labels `jsonData[headerRowIdx].map(h => String(h || "").trim())`. -/
def headersOf (data : Table) : List String :=
  ((data.get? (findHeaderRow data)).getD []).map jsTrim

/-- The column-role map resolved once per table. -/
def colsOf (data : Table) : ColumnIdx := autoDetectColumns (headersOf data) data

/-- The data rows below the located header row, paired with their original
zero-based indices in the table (`for (let i = headerRowIdx + 1; ...)`). -/
def dataRowsOf (data : Table) : List (ℕ × Row) :=
  enumFrom (findHeaderRow data + 1) (data.drop (findHeaderRow data + 1))

/-- The shared import pipeline of `processExcelFile` / `processCSVFile` on
the decoded table: the under-2-rows short circuit with the synthetic
file-level error, header location, one-time column resolution, and the
per-row loop accumulated into the final result.  `today` is the value the
source reads from `new Date().toISOString().split("T")[0]` when the loop
needs the current-date fallback. -/
def processTable (data : Table) (today : String) : ParseResult :=
  if data.length < 2 then
    { records := [], errors := [{ row := 0, message := "Arquivo vazio ou sem dados" }],
      headers := [], totalIncome := 0, totalExpense := 0 }
  else
    (dataRowsOf data).foldl
      (fun acc p => stepResult acc (processRow (colsOf data) today p.1 p.2))
      { records := [], errors := [], headers := headersOf data,
        totalIncome := 0, totalExpense := 0 }

/-! ## Characterisation of the pipeline fold -/

/-- The record (if any) that the loop body emits for one indexed data row. -/
def recOf (cols : ColumnIdx) (today : String) (p : ℕ × Row) : Option ParsedRecord :=
  match processRow cols today p.1 p.2 with
  | RowOutcome.emit _ r => some r
  | _ => none

/-- The row error (if any) that the loop body records for one indexed data row. -/
def errOf (cols : ColumnIdx) (today : String) (p : ℕ × Row) : Option RowError :=
  match processRow cols today p.1 p.2 with
  | RowOutcome.errAt n => some { row := n, message := invalidAmountMsg }
  | _ => none

/-- The (pre-mapping classification, absolute amount) pair that feeds the
running totals for one indexed data row. -/
def emitPairOf (cols : ColumnIdx) (today : String) (p : ℕ × Row) : Option (TType × ℚ) :=
  match processRow cols today p.1 p.2 with
  | RowOutcome.emit pre r => some (pre, r.amount)
  | _ => none

def incSum (ps : List (TType × ℚ)) : ℚ :=
  (ps.map (fun pr => if pr.1 = TType.income then pr.2 else 0)).sum

def expSum (ps : List (TType × ℚ)) : ℚ :=
  (ps.map (fun pr => if pr.1 = TType.expense then pr.2 else 0)).sum

lemma stepResult_fold (cols : ColumnIdx) (today : String) :
    ∀ (l : List (ℕ × Row)) (acc : ParseResult),
      l.foldl (fun acc p => stepResult acc (processRow cols today p.1 p.2)) acc =
      { records := acc.records ++ l.filterMap (recOf cols today),
        errors := acc.errors ++ l.filterMap (errOf cols today),
        headers := acc.headers,
        totalIncome := acc.totalIncome + incSum (l.filterMap (emitPairOf cols today)),
        totalExpense := acc.totalExpense + expSum (l.filterMap (emitPairOf cols today)) } := by
  intro l
  induction l with
  | nil =>
    intro acc
    cases acc
    simp [incSum, expSum]
  | cons p l ih =>
    intro acc
    rw [List.foldl_cons, ih]
    rcases h : processRow cols today p.1 p.2 with _ | n | ⟨pre, r⟩
    all_goals cases acc
    all_goals simp [stepResult, recOf, errOf, emitPairOf, h, incSum, expSum, add_assoc]

/-- `processTable` on a table with at least two rows, written as one pass of
row outcomes over the indexed data rows. -/
lemma processTable_spec (data : Table) (today : String) (h2 : 2 ≤ data.length) :
    processTable data today =
      { records := (dataRowsOf data).filterMap (recOf (colsOf data) today),
        errors := (dataRowsOf data).filterMap (errOf (colsOf data) today),
        headers := headersOf data,
        totalIncome := incSum ((dataRowsOf data).filterMap (emitPairOf (colsOf data) today)),
        totalExpense := expSum ((dataRowsOf data).filterMap (emitPairOf (colsOf data) today)) } := by
  have hlt : ¬data.length < 2 := by omega
  rw [processTable, if_neg hlt, stepResult_fold]
  simp

lemma enumFrom_mem {α : Type} :
    ∀ (k : ℕ) (l : List α) (i : ℕ) (a : α),
      (i, a) ∈ enumFrom k l → k ≤ i ∧ l.get? (i - k) = some a := by
  intro k l
  induction l generalizing k with
  | nil => intro i a h; simp [enumFrom] at h
  | cons x xs ih =>
    intro i a h
    rw [enumFrom, List.mem_cons] at h
    rcases h with h | h
    · have h1 : i = k := congrArg Prod.fst h
      have h2 : a = x := congrArg Prod.snd h
      subst h1; subst h2
      simp
    · obtain ⟨hk, hg⟩ := ih (k + 1) i a h
      refine ⟨by omega, ?_⟩
      have heq : i - k = (i - (k + 1)) + 1 := by omega
      rw [heq]
      simpa using hg

/-- Every indexed data row of the pipeline is the row stored at that index in
the original table. -/
lemma dataRowsOf_get (data : Table) :
    ∀ p ∈ dataRowsOf data, data.get? p.1 = some p.2 := by
  intro p hp
  obtain ⟨hk, hg⟩ := enumFrom_mem (findHeaderRow data + 1) _ p.1 p.2 hp
  rw [List.get?_drop] at hg
  rw [← hg]
  congr 1
  omega

/-! ## Per-row facts -/

lemma detectTypeFromValue_ne_unknown (tv : String) (t : TType)
    (h : detectTypeFromValue tv = some t) : t ≠ TType.unknownT := by
  rcases t with _ | _ | _
  · simp
  · simp
  · exfalso
    unfold detectTypeFromValue at h
    split_ifs at h <;> simp at h

lemma detectType_ne_unknown (d : String) (a : ℚ) (tv : String) (ha : a ≠ 0) :
    detectType d a tv ≠ TType.unknownT := by
  unfold detectType
  split
  · next t heq => exact detectTypeFromValue_ne_unknown tv t heq
  · split_ifs with h1 h2 h3 h4
    · simp
    · simp
    · simp
    · simp
    · exact absurd (le_antisymm (not_lt.mp h4) (not_lt.mp h1)) ha

lemma processRow_emit_inv (cols : ColumnIdx) (today : String) (i : ℕ) (row : Row)
    (pre : TType) (r : ParsedRecord)
    (h : processRow cols today i row = RowOutcome.emit pre r) :
    ∃ a, amountResolve cols row = some a ∧ a ≠ 0 ∧
      pre = detectType (buildDescription row cols.descIdx) a (typeValueOf cols row) ∧
      r.amount = qabs a ∧
      r.type = (if pre = TType.unknownT then TType.income else pre) ∧
      r.date = (dateResolve cols row).getD today := by
  unfold processRow at h
  split at h
  · exact absurd h (by simp)
  · split at h
    · exact absurd h (by simp)
    · split at h
      · exact absurd h (by simp)
      · rename_i hno
        rw [Bool.or_eq_true, not_or, Option.isNone_iff_eq_none] at hno
        rcases ham : amountResolve cols row with _ | a
        · exact absurd ham hno.1
        · have hz : a ≠ 0 := by
            intro hza
            exact hno.2 (by simp [ham, hza])
          rw [RowOutcome.emit.injEq] at h
          refine ⟨a, rfl, hz, ?_, ?_, ?_, ?_⟩
          · rw [← h.1, ham]
            simp
          · rw [← h.2, ham]
            simp
          · rw [← h.2, ← h.1, ham]
          · rw [← h.2]

lemma processRow_err_inv (cols : ColumnIdx) (today : String) (i : ℕ) (row : Row)
    (n : ℕ) (h : processRow cols today i row = RowOutcome.errAt n) :
    n = i + 1 := by
  unfold processRow at h
  split at h
  · exact absurd h (by simp)
  · split at h
    · exact absurd h (by simp)
    · split at h
      · exact (RowOutcome.errAt.injEq .. ▸ h).symm
      · exact absurd h (by simp)

lemma processRow_out_err (cols : ColumnIdx) (today : String) (i : ℕ) (row : Row)
    (hne : rowEmptyish row = false)
    (hcond : (amountResolve cols row = none ∧ dateResolve cols row ≠ none) ∨
             amountResolve cols row = some 0) :
    processRow cols today i row = RowOutcome.errAt (i + 1) := by
  unfold processRow
  rw [if_neg (by simp [hne])]
  rcases hcond with ⟨ha, hd⟩ | ha
  · rw [if_neg (by simp [ha, Option.isNone_iff_eq_none, hd]), if_pos (by simp [ha])]
  · rw [if_neg (by simp [ha]), if_pos (by simp [ha])]

lemma processRow_out_skip (cols : ColumnIdx) (today : String) (i : ℕ) (row : Row)
    (hd : dateResolve cols row = none) (ha : amountResolve cols row = none) :
    processRow cols today i row = RowOutcome.skip := by
  unfold processRow
  split
  · rfl
  · rw [if_pos (by simp [hd, ha])]

lemma processRow_date_fallback (cols : ColumnIdx) (today : String) (i : ℕ) (row : Row)
    (hne : rowEmptyish row = false)
    (hd : dateResolve cols row = none) (a : ℚ) (ha : amountResolve cols row = some a)
    (hz : a ≠ 0) :
    ∃ pre r, processRow cols today i row = RowOutcome.emit pre r ∧ r.date = today := by
  unfold processRow
  rw [if_neg (by simp [hne]), if_neg (by simp [ha]), if_neg (by simp [ha, hz])]
  exact ⟨_, _, rfl, by simp [hd]⟩

/-- The current date is consulted only by the missing-date fallback: on a row
that is empty, has a resolvable date, or has no resolvable amount, the loop
body does not depend on it. -/
lemma processRow_today_indep (cols : ColumnIdx) (t₁ t₂ : String) (i : ℕ) (row : Row)
    (hcond : rowEmptyish row = true ∨ dateResolve cols row ≠ none ∨
             amountResolve cols row = none) :
    processRow cols t₁ i row = processRow cols t₂ i row := by
  unfold processRow
  rcases hcond with he | hd | ha
  · rw [if_pos he, if_pos he]
  · rcases Option.ne_none_iff_exists.mp hd with ⟨d, hdd⟩
    rw [← hdd]
    simp
  · rcases hdr : dateResolve cols row with _ | d <;> simp [ha, hdr]

/-! ## Claim C5 -/

/-- C5: the flexible amount parser is format-symmetric — the Brazilian string
"1.234,56" and the US string "1,234.56" both parse to 1234.56 (the rational
123456/100), and the parenthesised "(500)" and the minus-signed "-500" both
parse to -500. -/
theorem c5_amount_format_symmetry :
    parseAmountFlexible "1.234,56" = some (Rat.divInt 123456 100) ∧
    parseAmountFlexible "1,234.56" = some (Rat.divInt 123456 100) ∧
    parseAmountFlexible "(500)" = some (-500) ∧
    parseAmountFlexible "-500" = some (-500) := by
  refine ⟨by decide, by decide, by decide, by decide⟩

/-! ## Claim C7 -/

/-- The claim's qualifying test, stated over natural numbers: at least two
non-empty cells, and at least half of the non-empty cells neither date-like
nor amount-parseable. -/
def headerRowQualifiesSpec (row : Row) : Bool :=
  2 ≤ (row.filter (fun c => c ≠ "")).length &&
  (row.filter (fun c => c ≠ "")).length ≤
    2 * (row.filter (fun c => c ≠ "" && !isLikelyDate c && (parseAmountFlexible c).isNone)).length

lemma headerQualifies_iff_spec (row : Row) :
    headerQualifies row = headerRowQualifiesSpec row := by
  unfold headerQualifies headerRowQualifiesSpec
  congr 1
  rw [decide_eq_decide]
  rw [Rat.divInt_le_divInt (by norm_num) (by norm_num)]
  constructor
  · intro h
    simp only [Int.ofNat_eq_coe] at h
    omega
  · intro h
    simp only [Int.ofNat_eq_coe]
    omega

lemma findHeaderRowGo_spec (data : Table) (l : List ℕ) :
    findHeaderRowGo data l =
      ((l.find? (fun i => headerQualifies ((data.get? i).getD []))).getD 0) := by
  induction l with
  | nil => rfl
  | cons i rest ih =>
    rw [findHeaderRowGo]
    simp only [List.find?_cons]
    cases h : headerQualifies ((data.get? i).getD [])
    · simpa using ih
    · simp

/-- C7: the header-row locator returns the first row among the first
`min(5, rowCount)` rows that has at least 2 non-empty cells and in which at
least half of the non-empty cells are neither date-like nor amount-parseable;
if no row in that window qualifies it returns row 0. -/
theorem c7_header_row_locator (data : Table) :
    findHeaderRow data =
      ((List.range (min data.length 5)).find?
        (fun i => headerRowQualifiesSpec ((data.get? i).getD []))).getD 0 := by
  unfold findHeaderRow
  rw [findHeaderRowGo_spec]
  have hfun : (fun i => headerQualifies ((data.get? i).getD [])) =
      (fun i => headerRowQualifiesSpec ((data.get? i).getD [])) :=
    funext (fun i => headerQualifies_iff_spec _)
  rw [hfun]

/-! ## Claim C2 -/

lemma emit_type_eq_pre (cols : ColumnIdx) (today : String) (i : ℕ) (row : Row)
    (pre : TType) (r : ParsedRecord)
    (h : processRow cols today i row = RowOutcome.emit pre r) :
    r.type = pre ∧ pre ≠ TType.unknownT := by
  obtain ⟨a, _, hz, hpre, _, hty, _⟩ := processRow_emit_inv cols today i row pre r h
  have hner : pre ≠ TType.unknownT := hpre ▸ detectType_ne_unknown _ a _ hz
  exact ⟨by rw [hty, if_neg hner], hner⟩

lemma incSum_filter (cols : ColumnIdx) (today : String) (l : List (ℕ × Row)) :
    incSum (l.filterMap (emitPairOf cols today)) =
      (((l.filterMap (recOf cols today)).filter (fun r => r.type = TType.income)).map
        (fun r => r.amount)).sum := by
  induction l with
  | nil => simp [incSum]
  | cons p l ih =>
    rcases h : processRow cols today p.1 p.2 with _ | n | ⟨pre, r⟩ <;>
      simp only [List.filterMap_cons, emitPairOf, recOf, h, incSum, List.map_cons, List.sum_cons] at ih ⊢
    · exact ih
    · exact ih
    · obtain ⟨hty, hne⟩ := emit_type_eq_pre cols today p.1 p.2 pre r h
      by_cases hinc : pre = TType.income
      · subst hinc
        rw [List.filter_cons_of_pos (by simp [hty])]
        simp [ih]
      · rw [List.filter_cons_of_neg (by simp [hty, hinc])]
        simp [ih, hinc]

lemma expSum_filter (cols : ColumnIdx) (today : String) (l : List (ℕ × Row)) :
    expSum (l.filterMap (emitPairOf cols today)) =
      (((l.filterMap (recOf cols today)).filter (fun r => r.type = TType.expense)).map
        (fun r => r.amount)).sum := by
  induction l with
  | nil => simp [expSum]
  | cons p l ih =>
    rcases h : processRow cols today p.1 p.2 with _ | n | ⟨pre, r⟩ <;>
      simp only [List.filterMap_cons, emitPairOf, recOf, h, expSum, List.map_cons, List.sum_cons] at ih ⊢
    · exact ih
    · exact ih
    · obtain ⟨hty, hne⟩ := emit_type_eq_pre cols today p.1 p.2 pre r h
      by_cases hexp : pre = TType.expense
      · subst hexp
        rw [List.filter_cons_of_pos (by simp [hty])]
        simp [ih]
      · rw [List.filter_cons_of_neg (by simp [hty, hexp])]
        simp [ih, hexp]

/-- C2: in every import result, `totalIncome` is the sum of `amount` over
exactly the emitted records whose type is income, and `totalExpense` the sum
over exactly those whose type is expense. -/
theorem c2_totals_sum_invariant (data : Table) (today : String) :
    (processTable data today).totalIncome =
      (((processTable data today).records.filter (fun r => r.type = TType.income)).map
        (fun r => r.amount)).sum ∧
    (processTable data today).totalExpense =
      (((processTable data today).records.filter (fun r => r.type = TType.expense)).map
        (fun r => r.amount)).sum := by
  by_cases h2 : data.length < 2
  · rw [processTable, if_pos h2]
    simp
  · rw [processTable_spec data today (by omega)]
    exact ⟨incSum_filter .., expSum_filter ..⟩

/-! ## Claim C8 -/

lemma qabs_pos (a : ℚ) (ha : a ≠ 0) : 0 < qabs a := by
  unfold qabs
  split_ifs with h
  · linarith
  · rcases lt_or_eq_of_le (not_lt.mp h) with h' | h'
    · exact h'
    · exact absurd h'.symm ha

/-- C8: every record emitted by the pipeline is well-formed — its amount is
strictly positive (the sign of the parsed cell is consumed by classification)
and its type is income or expense (the internal unknown state never reaches
the output). -/
theorem c8_records_wellformed (data : Table) (today : String) :
    ∀ r ∈ (processTable data today).records,
      0 < r.amount ∧ (r.type = TType.income ∨ r.type = TType.expense) := by
  intro r hr
  by_cases h2 : data.length < 2
  · rw [processTable, if_pos h2] at hr
    simp at hr
  · rw [processTable_spec data today (by omega)] at hr
    simp only [List.mem_filterMap] at hr
    obtain ⟨p, _, hrec⟩ := hr
    unfold recOf at hrec
    rcases h : processRow (colsOf data) today p.1 p.2 with _ | n | ⟨pre, r'⟩ <;> rw [h] at hrec
    · exact absurd hrec (by simp)
    · exact absurd hrec (by simp)
    · have hrr : r' = r := by simpa using hrec
      subst hrr
      obtain ⟨a, _, hz, _, hamt, _, _⟩ := processRow_emit_inv _ _ _ _ _ _ h
      obtain ⟨hty, hne⟩ := emit_type_eq_pre _ _ _ _ _ _ h
      refine ⟨hamt ▸ qabs_pos a hz, ?_⟩
      rcases pre with _ | _ | _
      · exact Or.inl hty
      · exact Or.inr hty
      · exact absurd rfl hne

/-- Witness for C8 at a concrete table: the single emitted record (150
imported as income from row ["01/03/2024", "150"]) is well-formed. -/
theorem c8_records_wellformed_witness :
    0 < ({ date := "2024-03-01", description := "Sem descrição", amount := 150,
           type := TType.income, category := "offering", donor := none,
           rawData := ["01/03/2024", "150"] } : ParsedRecord).amount ∧
    (({ date := "2024-03-01", description := "Sem descrição", amount := 150,
        type := TType.income, category := "offering", donor := none,
        rawData := ["01/03/2024", "150"] } : ParsedRecord).type = TType.income ∨
     ({ date := "2024-03-01", description := "Sem descrição", amount := 150,
        type := TType.income, category := "offering", donor := none,
        rawData := ["01/03/2024", "150"] } : ParsedRecord).type = TType.expense) :=
  c8_records_wellformed [["Data", "Valor"], ["01/03/2024", "150"]] "2024-05-05" _ (by decide)

/-! ## Claim C9 -/

/-- C9: on a table with at least two rows, the error list is exactly the
per-row error outcomes of the data rows; every indexed data row is the row at
that index of the original table; an error outcome at index `i` carries the
row number `i + 1` (one-based position counting the header rows above); and
the records and both totals are assembled exclusively from the emit outcomes,
so an erroring row contributes no record and nothing to either total. -/
theorem c9_row_error_accounting (data : Table) (today : String) (h2 : 2 ≤ data.length) :
    ((processTable data today).errors =
      (dataRowsOf data).filterMap (errOf (colsOf data) today)) ∧
    (∀ p ∈ dataRowsOf data, data.get? p.1 = some p.2) ∧
    (∀ p ∈ dataRowsOf data, ∀ n,
      processRow (colsOf data) today p.1 p.2 = RowOutcome.errAt n → n = p.1 + 1) ∧
    ((processTable data today).records =
      (dataRowsOf data).filterMap (recOf (colsOf data) today)) ∧
    ((processTable data today).totalIncome =
      incSum ((dataRowsOf data).filterMap (emitPairOf (colsOf data) today))) ∧
    ((processTable data today).totalExpense =
      expSum ((dataRowsOf data).filterMap (emitPairOf (colsOf data) today))) := by
  rw [processTable_spec data today h2]
  refine ⟨rfl, dataRowsOf_get data, ?_, rfl, rfl, rfl⟩
  intro p _ n h
  exact processRow_err_inv _ _ _ _ _ h

/-- Witness for C9 at a concrete table whose single data row has a parseable
date but an unparseable amount: the pipeline reports exactly the row error
numbered 2 (zero-based original index 1 plus 1) and emits no record. -/
theorem c9_row_error_accounting_witness :
    (processTable [["Data", "Valor"], ["01/03/2024", "abc"]] "2024-05-05").errors =
      [{ row := 2, message := invalidAmountMsg }] ∧
    (processTable [["Data", "Valor"], ["01/03/2024", "abc"]] "2024-05-05").records = [] := by
  have h := c9_row_error_accounting [["Data", "Valor"], ["01/03/2024", "abc"]] "2024-05-05"
    (by decide)
  exact ⟨h.1.trans (by decide), h.2.2.2.1.trans (by decide)⟩

/-! ## Claim C4: digit and split infrastructure -/

lemma digitCh_eq_mod (n : ℕ) : digitCh n = digitCh (n % 10) := by
  have h : n % 10 % 10 = n % 10 := by omega
  unfold digitCh
  rw [h]

lemma digitCh_lt10 : ∀ k, k < 10 → ((digitCh k).toNat = 48 + k ∧ isDigitChar (digitCh k) = true) := by
  decide

lemma digitCh_isDigit (n : ℕ) : isDigitChar (digitCh n) = true := by
  rw [digitCh_eq_mod]
  exact (digitCh_lt10 (n % 10) (by omega)).2

lemma digitVal_digitCh (n : ℕ) : digitVal (digitCh n) = n % 10 := by
  unfold digitVal
  rw [digitCh_eq_mod, (digitCh_lt10 (n % 10) (by omega)).1]
  omega

lemma digitsVal_mk2 (n : ℕ) (h : n < 100) : digitsVal (mk2 n) = n := by
  unfold digitsVal mk2
  simp only [List.foldl_cons, List.foldl_nil, digitVal_digitCh]
  omega

lemma digitsVal_mk4 (n : ℕ) (h : n < 10000) : digitsVal (mk4 n) = n := by
  unfold digitsVal mk4
  simp only [List.foldl_cons, List.foldl_nil, digitVal_digitCh]
  omega

lemma digit_ne_char (c x : Char) (h : isDigitChar c = true) (hx : isDigitChar x = false) :
    c ≠ x := by
  intro he
  rw [he, hx] at h
  exact Bool.false_ne_true h

lemma digit_not_ws (c : Char) (h : isDigitChar c = true) : jsWs c = false := by
  unfold jsWs
  simp only [Bool.or_eq_false_iff, decide_eq_false_iff_not]
  refine ⟨⟨⟨⟨⟨⟨?_, ?_⟩, ?_⟩, ?_⟩, ?_⟩, ?_⟩, ?_⟩ <;>
    (intro he; subst he; exact absurd h (by decide))

lemma mem_mk2_digit (n : ℕ) : ∀ c ∈ mk2 n, isDigitChar c = true := by
  intro c hc
  unfold mk2 at hc
  simp only [List.mem_cons, List.not_mem_nil, or_false] at hc
  rcases hc with hc | hc <;> subst hc <;> exact digitCh_isDigit _

lemma mem_mk4_digit (n : ℕ) : ∀ c ∈ mk4 n, isDigitChar c = true := by
  intro c hc
  unfold mk4 at hc
  simp only [List.mem_cons, List.not_mem_nil, or_false] at hc
  rcases hc with hc | hc | hc | hc <;> subst hc <;> exact digitCh_isDigit _

lemma dropWhile_of_neg {p : Char → Bool} (l : List Char) (h : ∀ c ∈ l, p c = false) :
    l.dropWhile p = l := by
  cases l with
  | nil => rfl
  | cons c rest =>
    rw [List.dropWhile_cons, h c (by simp)]
    simp

lemma jsTrimChars_of_no_ws (l : List Char) (h : ∀ c ∈ l, jsWs c = false) :
    jsTrimChars l = l := by
  unfold jsTrimChars
  rw [dropWhile_of_neg l h,
      dropWhile_of_neg _ (fun c hc => h c (List.mem_reverse.mp hc)),
      List.reverse_reverse]

lemma chars_ofChars (l : List Char) : chars (ofChars l) = l := rfl

lemma ofChars_ne_empty (l : List Char) (h : l ≠ []) : ofChars l ≠ "" :=
  fun he => h (congrArg String.data he)

lemma splitOnChar_nosep (sep : Char) (l : List Char) (h : ∀ c ∈ l, c ≠ sep) :
    splitOnChar sep l = [l] := by
  induction l with
  | nil => rfl
  | cons c rest ih =>
    rw [splitOnChar, if_neg (h c (by simp)), ih (fun x hx => h x (by simp [hx]))]

lemma splitOnChar_sep_append (sep : Char) (a rest : List Char) (h : ∀ c ∈ a, c ≠ sep) :
    splitOnChar sep (a ++ sep :: rest) = a :: splitOnChar sep rest := by
  induction a with
  | nil => rw [List.nil_append, splitOnChar, if_pos rfl]
  | cons x a' ih =>
    rw [List.cons_append, splitOnChar, if_neg (h x (by simp)),
        ih (fun c hc => h c (by simp [hc]))]

lemma splitOnChar_ne_nil (sep : Char) (l : List Char) : splitOnChar sep l ≠ [] := by
  cases l with
  | nil => simp [splitOnChar]
  | cons c rest =>
    rw [splitOnChar]
    split
    · simp
    · rcases hs : splitOnChar sep rest with _ | ⟨g, gs⟩ <;> simp

lemma splitOnChar_three (sep : Char) (a b c : List Char)
    (ha : ∀ x ∈ a, x ≠ sep) (hb : ∀ x ∈ b, x ≠ sep) (hc : ∀ x ∈ c, x ≠ sep) :
    splitOnChar sep (a ++ sep :: (b ++ sep :: c)) = [a, b, c] := by
  rw [splitOnChar_sep_append sep a _ ha, splitOnChar_sep_append sep b _ hb,
      splitOnChar_nosep sep c hc]

lemma digitRun_mk2_22 (n : ℕ) : digitRun (mk2 n) 2 2 = true := by
  unfold digitRun mk2
  simp [digitCh_isDigit]

lemma digitRun_mk2_12 (n : ℕ) : digitRun (mk2 n) 1 2 = true := by
  unfold digitRun mk2
  simp [digitCh_isDigit]

lemma digitRun_mk4_44 (n : ℕ) : digitRun (mk4 n) 4 4 = true := by
  unfold digitRun mk4
  simp [digitCh_isDigit]

lemma digitRun_mk4_24 (n : ℕ) : digitRun (mk4 n) 2 4 = true := by
  unfold digitRun mk4
  simp [digitCh_isDigit]

lemma digitRun_mk2_44 (n : ℕ) : digitRun (mk2 n) 4 4 = false := by
  unfold digitRun mk2
  simp

lemma mem_mk2_ne (n : ℕ) (x : Char) (hx : isDigitChar x = false) : ∀ c ∈ mk2 n, c ≠ x :=
  fun c hc => digit_ne_char c x (mem_mk2_digit n c hc) hx

lemma mem_mk4_ne (n : ℕ) (x : Char) (hx : isDigitChar x = false) : ∀ c ∈ mk4 n, c ≠ x :=
  fun c hc => digit_ne_char c x (mem_mk4_digit n c hc) hx

/-- The ISO rendering `YYYY-MM-DD` assembled exactly as the source's format
callbacks assemble their template strings. -/
def isoOf (y m d : ℕ) : String := ofChars (mk4 y ++ '-' :: (mk2 m ++ '-' :: mk2 d))

lemma validYMD_holds (y m d : ℕ) (hy1 : 1900 ≤ y) (hy2 : y ≤ 2100)
    (hm1 : 1 ≤ m) (hm2 : m ≤ 12) (hd1 : 1 ≤ d) (hd2 : d ≤ 31) :
    validYMD (digitsVal (mk4 y)) (digitsVal (mk2 m)) (digitsVal (mk2 d)) = true := by
  rw [digitsVal_mk4 y (by omega), digitsVal_mk2 m (by omega), digitsVal_mk2 d (by omega)]
  unfold validYMD
  simp only [Bool.and_eq_true, decide_eq_true_eq]
  omega

lemma parseDate_via_fmt (s : String) (R : List Char) (hne : s ≠ "")
    (hfmt : firstValidFmt (dateFormatAttempts (jsTrimChars (chars s))) = some R) :
    parseDate s = some (ofChars R) := by
  unfold parseDate
  rw [if_neg hne]
  simp only []
  rw [hfmt]

lemma mem_sepList (a b c : List Char) (sep : Char) (x : Char)
    (hx : x ∈ a ++ sep :: (b ++ sep :: c)) : x ∈ a ∨ x = sep ∨ x ∈ b ∨ x ∈ c := by
  simp only [List.mem_append, List.mem_cons] at hx
  tauto

lemma sepList_no_ws (a b c : List Char) (sep : Char)
    (ha : ∀ x ∈ a, isDigitChar x = true) (hb : ∀ x ∈ b, isDigitChar x = true)
    (hc : ∀ x ∈ c, isDigitChar x = true) (hsep : jsWs sep = false) :
    ∀ x ∈ a ++ sep :: (b ++ sep :: c), jsWs x = false := by
  intro x hx
  rcases mem_sepList a b c sep x hx with h | h | h | h
  · exact digit_not_ws x (ha x h)
  · exact h ▸ hsep
  · exact digit_not_ws x (hb x h)
  · exact digit_not_ws x (hc x h)

lemma sepList_ne (a b c : List Char) (sep q : Char)
    (ha : ∀ x ∈ a, isDigitChar x = true) (hb : ∀ x ∈ b, isDigitChar x = true)
    (hc : ∀ x ∈ c, isDigitChar x = true) (hq : isDigitChar q = false) (hsq : sep ≠ q) :
    ∀ x ∈ a ++ sep :: (b ++ sep :: c), x ≠ q := by
  intro x hx
  rcases mem_sepList a b c sep x hx with h | h | h | h
  · exact digit_ne_char x q (ha x h) hq
  · exact h ▸ hsq
  · exact digit_ne_char x q (hb x h) hq
  · exact digit_ne_char x q (hc x h) hq

lemma parseDate_fmt_slash (y m d : ℕ) (hy1 : 1900 ≤ y) (hy2 : y ≤ 2100)
    (hm1 : 1 ≤ m) (hm2 : m ≤ 12) (hd1 : 1 ≤ d) (hd2 : d ≤ 31) :
    parseDate (ofChars (mk2 d ++ '/' :: (mk2 m ++ '/' :: mk4 y))) = some (isoOf y m d) := by
  apply parseDate_via_fmt _ _ (ofChars_ne_empty _ (by simp [mk2]))
  rw [chars_ofChars,
      jsTrimChars_of_no_ws _
        (sepList_no_ws _ _ _ '/' (mem_mk2_digit d) (mem_mk2_digit m) (mem_mk4_digit y)
          (by decide))]
  unfold dateFormatAttempts
  rw [splitOnChar_three '/' _ _ _ (mem_mk2_ne d '/' (by decide)) (mem_mk2_ne m '/' (by decide))
        (mem_mk4_ne y '/' (by decide)),
      splitOnChar_nosep '-' _
        (sepList_ne _ _ _ '/' '-' (mem_mk2_digit d) (mem_mk2_digit m) (mem_mk4_digit y)
          (by decide) (by decide)),
      splitOnChar_nosep '.' _
        (sepList_ne _ _ _ '/' '.' (mem_mk2_digit d) (mem_mk2_digit m) (mem_mk4_digit y)
          (by decide) (by decide))]
  simp only [digitRun_mk2_22, digitRun_mk4_44, Bool.and_self, Bool.true_and, if_true]
  simp only [firstValidFmt]
  rw [validYMD_holds y m d hy1 hy2 hm1 hm2 hd1 hd2]
  simp [isoOf]

lemma parseDate_fmt_ymd (y m d : ℕ) (hy1 : 1900 ≤ y) (hy2 : y ≤ 2100)
    (hm1 : 1 ≤ m) (hm2 : m ≤ 12) (hd1 : 1 ≤ d) (hd2 : d ≤ 31) :
    parseDate (ofChars (mk4 y ++ '-' :: (mk2 m ++ '-' :: mk2 d))) = some (isoOf y m d) := by
  apply parseDate_via_fmt _ _ (ofChars_ne_empty _ (by simp [mk4]))
  rw [chars_ofChars,
      jsTrimChars_of_no_ws _
        (sepList_no_ws _ _ _ '-' (mem_mk4_digit y) (mem_mk2_digit m) (mem_mk2_digit d)
          (by decide))]
  unfold dateFormatAttempts
  rw [splitOnChar_three '-' _ _ _ (mem_mk4_ne y '-' (by decide)) (mem_mk2_ne m '-' (by decide))
        (mem_mk2_ne d '-' (by decide)),
      splitOnChar_nosep '/' _
        (sepList_ne _ _ _ '-' '/' (mem_mk4_digit y) (mem_mk2_digit m) (mem_mk2_digit d)
          (by decide) (by decide)),
      splitOnChar_nosep '.' _
        (sepList_ne _ _ _ '-' '.' (mem_mk4_digit y) (mem_mk2_digit m) (mem_mk2_digit d)
          (by decide) (by decide))]
  simp only [digitRun_mk2_22, digitRun_mk4_44, Bool.and_self, Bool.true_and, if_true]
  simp only [firstValidFmt]
  rw [validYMD_holds y m d hy1 hy2 hm1 hm2 hd1 hd2]
  simp [isoOf]

lemma parseDate_fmt_dmy_dash (y m d : ℕ) (hy1 : 1900 ≤ y) (hy2 : y ≤ 2100)
    (hm1 : 1 ≤ m) (hm2 : m ≤ 12) (hd1 : 1 ≤ d) (hd2 : d ≤ 31) :
    parseDate (ofChars (mk2 d ++ '-' :: (mk2 m ++ '-' :: mk4 y))) = some (isoOf y m d) := by
  apply parseDate_via_fmt _ _ (ofChars_ne_empty _ (by simp [mk2]))
  rw [chars_ofChars,
      jsTrimChars_of_no_ws _
        (sepList_no_ws _ _ _ '-' (mem_mk2_digit d) (mem_mk2_digit m) (mem_mk4_digit y)
          (by decide))]
  unfold dateFormatAttempts
  rw [splitOnChar_three '-' _ _ _ (mem_mk2_ne d '-' (by decide)) (mem_mk2_ne m '-' (by decide))
        (mem_mk4_ne y '-' (by decide)),
      splitOnChar_nosep '/' _
        (sepList_ne _ _ _ '-' '/' (mem_mk2_digit d) (mem_mk2_digit m) (mem_mk4_digit y)
          (by decide) (by decide)),
      splitOnChar_nosep '.' _
        (sepList_ne _ _ _ '-' '.' (mem_mk2_digit d) (mem_mk2_digit m) (mem_mk4_digit y)
          (by decide) (by decide))]
  simp only [digitRun_mk2_22, digitRun_mk2_44, digitRun_mk4_44, Bool.and_self, Bool.true_and,
    Bool.false_and, Bool.and_false, if_true, if_false]
  simp only [firstValidFmt]
  rw [validYMD_holds y m d hy1 hy2 hm1 hm2 hd1 hd2]
  simp [isoOf]

lemma parseDate_fmt_dmy_dot (y m d : ℕ) (hy1 : 1900 ≤ y) (hy2 : y ≤ 2100)
    (hm1 : 1 ≤ m) (hm2 : m ≤ 12) (hd1 : 1 ≤ d) (hd2 : d ≤ 31) :
    parseDate (ofChars (mk2 d ++ '.' :: (mk2 m ++ '.' :: mk4 y))) = some (isoOf y m d) := by
  apply parseDate_via_fmt _ _ (ofChars_ne_empty _ (by simp [mk2]))
  rw [chars_ofChars,
      jsTrimChars_of_no_ws _
        (sepList_no_ws _ _ _ '.' (mem_mk2_digit d) (mem_mk2_digit m) (mem_mk4_digit y)
          (by decide))]
  unfold dateFormatAttempts
  rw [splitOnChar_three '.' _ _ _ (mem_mk2_ne d '.' (by decide)) (mem_mk2_ne m '.' (by decide))
        (mem_mk4_ne y '.' (by decide)),
      splitOnChar_nosep '/' _
        (sepList_ne _ _ _ '.' '/' (mem_mk2_digit d) (mem_mk2_digit m) (mem_mk4_digit y)
          (by decide) (by decide)),
      splitOnChar_nosep '-' _
        (sepList_ne _ _ _ '.' '-' (mem_mk2_digit d) (mem_mk2_digit m) (mem_mk4_digit y)
          (by decide) (by decide))]
  simp only [digitRun_mk2_22, digitRun_mk4_44, Bool.and_self, Bool.true_and, if_true]
  simp only [firstValidFmt]
  rw [validYMD_holds y m d hy1 hy2 hm1 hm2 hd1 hd2]
  simp [isoOf]

/-- The regex-format stage of `parseDate` finds no validated match. -/
def dateFormatsFail (s : String) : Bool :=
  (firstValidFmt (dateFormatAttempts (jsTrimChars (chars s)))).isNone

/-- The spreadsheet-serial stage of `parseDate` yields nothing: `Number` is
`NaN`, or the serial decoder rejects the value, or the decoded year is below
1900. -/
def excelBranchFails (s : String) : Bool :=
  match (jsNumber s).bind parseDateCode with
  | none => true
  | some p => decide (p.1 < 1900)

/-- The native `new Date(str)` last resort yields nothing. -/
def nativeBranchFails (s : String) : Bool := (jsNativeDate s).isNone

/-- C4: for every string in one of the formats DD/MM/YYYY, YYYY-MM-DD,
DD-MM-YYYY, DD.MM.YYYY with year in [1900, 2100], month in [1, 12] and day in
[1, 31], the date parser returns the equivalent ISO `YYYY-MM-DD` string; and
whenever every parsing strategy fails — the validated regex formats, the
spreadsheet-serial branch, and the native last resort — it returns the
unparseable signal `none` instead of throwing (the embedding is a total
function into `Option`). -/
theorem c4_date_formats_and_null :
    (∀ y m d : ℕ, 1900 ≤ y → y ≤ 2100 → 1 ≤ m → m ≤ 12 → 1 ≤ d → d ≤ 31 →
      parseDate (ofChars (mk2 d ++ '/' :: (mk2 m ++ '/' :: mk4 y))) = some (isoOf y m d) ∧
      parseDate (ofChars (mk4 y ++ '-' :: (mk2 m ++ '-' :: mk2 d))) = some (isoOf y m d) ∧
      parseDate (ofChars (mk2 d ++ '-' :: (mk2 m ++ '-' :: mk4 y))) = some (isoOf y m d) ∧
      parseDate (ofChars (mk2 d ++ '.' :: (mk2 m ++ '.' :: mk4 y))) = some (isoOf y m d)) ∧
    (∀ s : String, dateFormatsFail s = true → excelBranchFails s = true →
      nativeBranchFails s = true → parseDate s = none) := by
  constructor
  · intro y m d hy1 hy2 hm1 hm2 hd1 hd2
    exact ⟨parseDate_fmt_slash y m d hy1 hy2 hm1 hm2 hd1 hd2,
           parseDate_fmt_ymd y m d hy1 hy2 hm1 hm2 hd1 hd2,
           parseDate_fmt_dmy_dash y m d hy1 hy2 hm1 hm2 hd1 hd2,
           parseDate_fmt_dmy_dot y m d hy1 hy2 hm1 hm2 hd1 hd2⟩
  · intro s hf he hn
    unfold dateFormatsFail at hf
    rw [Option.isNone_iff_eq_none] at hf
    unfold nativeBranchFails at hn
    rw [Option.isNone_iff_eq_none] at hn
    unfold parseDate
    split
    · rfl
    · simp only [hf]
      rcases hv : jsNumber s with _ | v
      · simp only [hn]
      · rcases hc : parseDateCode v with _ | ⟨yy, mm, dd⟩
        · simp only [hc, hn]
        · have hyy : yy < 1900 := by
            unfold excelBranchFails at he
            rw [hv] at he
            simp only [Option.some_bind, hc, decide_eq_true_eq] at he
            exact he
          simp only [hc]
          rw [if_neg (by omega)]
          simp only [hn]

/-- Witness for C4: the parser maps "01/03/2024" to "2024-03-01", and returns
`none` on "abc", where every strategy fails. -/
theorem c4_date_formats_and_null_witness :
    parseDate "01/03/2024" = some "2024-03-01" ∧ parseDate "abc" = none := by
  constructor
  · have h := (c4_date_formats_and_null.1 2024 3 1 (by norm_num) (by norm_num) (by norm_num)
      (by norm_num) (by norm_num) (by norm_num)).1
    have e1 : ofChars (mk2 1 ++ '/' :: (mk2 3 ++ '/' :: mk4 2024)) = "01/03/2024" := by decide
    have e2 : isoOf 2024 3 1 = "2024-03-01" := by decide
    rw [e1, e2] at h
    exact h
  · exact c4_date_formats_and_null.2 "abc" (by decide) (by decide) (by decide)

/-! ## Claim C1 -/

/-- C1 as stated is false on the code: in this table the single data row's
date parsing fails after all fallbacks (the resolved date column and the
full-row scan both yield nothing), yet the pipeline records no RowError for
the row and still emits a record (with the current-date fallback). -/
theorem c1_claim_counterexample :
    dateResolve (colsOf [["Data", "Valor"], ["abc", "(500)"]]) ["abc", "(500)"] = none ∧
    (processTable [["Data", "Valor"], ["abc", "(500)"]] "2024-01-01").errors = [] ∧
    (processTable [["Data", "Valor"], ["abc", "(500)"]] "2024-01-01").records.length = 1 := by
  refine ⟨by decide, by decide, by decide⟩

/-- C1 amended: every data row is processed into exactly one outcome and the
pipeline aggregates all of them (it never aborts); a non-empty row whose
amount parsing fails after all fallbacks while a date was found, or whose
amount parses to zero, produces the RowError outcome; a row where both date
and amount fail is skipped silently with no RowError; and a non-empty row
whose date alone fails still emits a record carrying the current date. -/
theorem c1_amended (data : Table) (today : String) (h2 : 2 ≤ data.length) :
    ((processTable data today).records =
        (dataRowsOf data).filterMap (recOf (colsOf data) today) ∧
     (processTable data today).errors =
        (dataRowsOf data).filterMap (errOf (colsOf data) today)) ∧
    (∀ i row, rowEmptyish row = false →
      dateResolve (colsOf data) row ≠ none →
      (amountResolve (colsOf data) row = none ∨ amountResolve (colsOf data) row = some 0) →
      processRow (colsOf data) today i row = RowOutcome.errAt (i + 1)) ∧
    (∀ i row, dateResolve (colsOf data) row = none →
      amountResolve (colsOf data) row = none →
      processRow (colsOf data) today i row = RowOutcome.skip) ∧
    (∀ i row a, rowEmptyish row = false →
      dateResolve (colsOf data) row = none →
      amountResolve (colsOf data) row = some a → a ≠ 0 →
      ∃ pre r, processRow (colsOf data) today i row = RowOutcome.emit pre r ∧
        r.date = today) := by
  refine ⟨?_, ?_, ?_, ?_⟩
  · rw [processTable_spec data today h2]
    exact ⟨rfl, rfl⟩
  · intro i row hne hd hcond
    apply processRow_out_err _ _ _ _ hne
    rcases hcond with ha | ha
    · exact Or.inl ⟨ha, hd⟩
    · exact Or.inr ha
  · intro i row hd ha
    exact processRow_out_skip _ _ _ _ hd ha
  · intro i row a hne hd ha hz
    exact processRow_date_fallback _ _ _ _ hne hd a ha hz

/-- Witness for the amended C1: a concrete non-empty row with a parseable
date but unparseable amount takes exactly the RowError outcome numbered 2. -/
theorem c1_amended_witness :
    processRow (colsOf [["Data", "Valor"], ["01/03/2024", "abc"]]) "2024-05-05" 1
      ["01/03/2024", "abc"] = RowOutcome.errAt 2 :=
  (c1_amended [["Data", "Valor"], ["01/03/2024", "abc"]] "2024-05-05" (by decide)).2.1 1
    ["01/03/2024", "abc"] (by decide) (by decide) (Or.inl (by decide))

/-! ## Claim C3 -/

/-- C3 as stated is false on the code: re-running the importer on the same
raw table at two different dates yields different results, because a row with
a parseable amount but no parseable date receives the current date. -/
theorem c3_claim_counterexample :
    processTable [["Data", "Valor"], ["abc", "(500)"]] "2024-01-01" ≠
    processTable [["Data", "Valor"], ["abc", "(500)"]] "2024-01-02" := by
  intro h
  have h2 : (processTable [["Data", "Valor"], ["abc", "(500)"]] "2024-01-01").records.map
      (fun r => r.date) =
      (processTable [["Data", "Valor"], ["abc", "(500)"]] "2024-01-02").records.map
      (fun r => r.date) := by rw [h]
  have e1 : (processTable [["Data", "Valor"], ["abc", "(500)"]] "2024-01-01").records.map
      (fun r => r.date) = ["2024-01-01"] := by decide
  have e2 : (processTable [["Data", "Valor"], ["abc", "(500)"]] "2024-01-02").records.map
      (fun r => r.date) = ["2024-01-02"] := by decide
  rw [e1, e2] at h2
  exact absurd h2 (by decide)

lemma foldl_step_congr (l : List (ℕ × Row)) (f g : ℕ → Row → RowOutcome)
    (h : ∀ p ∈ l, f p.1 p.2 = g p.1 p.2) :
    ∀ acc : ParseResult,
      l.foldl (fun acc p => stepResult acc (f p.1 p.2)) acc =
      l.foldl (fun acc p => stepResult acc (g p.1 p.2)) acc := by
  induction l with
  | nil => intro _; rfl
  | cons p l ih =>
    intro acc
    rw [List.foldl_cons, List.foldl_cons, h p (by simp)]
    exact ih (fun q hq => h q (by simp [hq])) _

/-- C3 amended: the importer is a deterministic function of the raw table
and the current date; the current date is consulted only by the missing-date
fallback, so whenever every data row is empty, yields a date, or yields no
amount, the result is a pure function of the table alone — re-running at any
other time gives an identical result. -/
theorem c3_amended (data : Table) (t₁ t₂ : String)
    (h : ∀ p ∈ dataRowsOf data,
      rowEmptyish p.2 = true ∨ dateResolve (colsOf data) p.2 ≠ none ∨
      amountResolve (colsOf data) p.2 = none) :
    processTable data t₁ = processTable data t₂ := by
  by_cases h2 : data.length < 2
  · rw [processTable, if_pos h2, processTable, if_pos h2]
  · rw [processTable, if_neg h2, processTable, if_neg h2]
    exact foldl_step_congr _ _ _
      (fun p hp => processRow_today_indep (colsOf data) t₁ t₂ p.1 p.2 (h p hp)) _

/-- Witness for the amended C3: a table whose single data row has a
parseable date produces bit-identical results at two different dates. -/
theorem c3_amended_witness :
    processTable [["Data", "Valor"], ["01/03/2024", "150"]] "2024-01-01" =
    processTable [["Data", "Valor"], ["01/03/2024", "150"]] "2024-01-02" :=
  c3_amended [["Data", "Valor"], ["01/03/2024", "150"]] "2024-01-01" "2024-01-02" (by decide)

/-! ## Claim C6 -/

/-- The claim's comma rule read literally: the comma is a decimal separator
exactly when it is followed by exactly 1 or 2 digits (one comma, and the
whole suffix after it consists of 1 or 2 digit characters). -/
def claimCommaDecimal (l : List Char) : Bool :=
  l.count ',' = 1 &&
  ((l.dropWhile (fun c => c ≠ ',')).tail.all isDigitChar &&
   1 ≤ (l.dropWhile (fun c => c ≠ ',')).tail.length &&
   (l.dropWhile (fun c => c ≠ ',')).tail.length ≤ 2)

/-- The amount parser with the separator stage replaced by the claim's
literal comma rule (the both-separators case is unchanged — the claim speaks
only of comma-without-period strings). -/
def parseAmountFlexibleClaimC6 (cell : String) : Option ℚ :=
  if cell = "" then none
  else
    match jsParseFloat (ofChars
      (if (cleanedOf cell).contains ',' && !(cleanedOf cell).contains '.' then
        (if claimCommaDecimal (cleanedOf cell) then replaceFirst ',' '.' (cleanedOf cell)
         else removeAll ',' (cleanedOf cell))
       else sepStage (cleanedOf cell))) with
    | none => none
    | some a => some (if negMark cell then -qabs a else a)

/-- C6 as stated is false on the code: the source tests the length of the
segment after the comma, not that it is digits — on "1,2-" (comma followed by
a digit and a minus) the code treats the comma as decimal and parses 1.2,
while the claim's rule would strip the comma and parse 12. -/
theorem c6_claim_counterexample :
    parseAmountFlexible "1,2-" = some (Rat.divInt 6 5) ∧
    parseAmountFlexibleClaimC6 "1,2-" = some (Rat.divInt 12 1) ∧
    Rat.divInt 6 5 ≠ Rat.divInt 12 1 := by
  refine ⟨by decide, by decide, by decide⟩

/-- The amended comma rule: decimal exactly when the comma is unique and at
most two characters (of any kind) follow it. -/
def amendedCommaDecimal (l : List Char) : Bool :=
  l.count ',' = 1 && (l.dropWhile (fun c => c ≠ ',')).tail.length ≤ 2

lemma dropWhile_first_sep (sep : Char) (l : List Char) (h : l.contains sep = true) :
    ∃ b, l.dropWhile (fun c => c ≠ sep) = sep :: b := by
  induction l with
  | nil => simp at h
  | cons c rest ih =>
    by_cases hcs : c = sep
    · subst hcs
      exact ⟨rest, by rw [List.dropWhile_cons, if_neg (by simp)]⟩
    · have hm : sep = c ∨ sep ∈ rest := by simpa using h
      have h' : rest.contains sep = true := by
        rcases hm with h0 | h0
        · exact absurd h0.symm hcs
        · simpa using h0
      obtain ⟨b, hb⟩ := ih h'
      exact ⟨b, by rw [List.dropWhile_cons, if_pos (by simp [hcs]), hb]⟩

lemma count_eq_zero_of_all_ne (sep : Char) (l : List Char) (h : ∀ c ∈ l, c ≠ sep) :
    l.count sep = 0 :=
  List.count_eq_zero.mpr (fun hm => h sep hm rfl)

/-- The splitOnChar segment count is one more than the separator count. -/
lemma splitOnChar_length (sep : Char) (l : List Char) :
    (splitOnChar sep l).length = l.count sep + 1 := by
  induction l with
  | nil => simp [splitOnChar]
  | cons c rest ih =>
    rw [splitOnChar]
    by_cases h : c = sep
    · rw [if_pos h]
      simp only [List.length_cons, ih, List.count_cons]
      simp [h]
    · rw [if_neg h]
      rcases hs : splitOnChar sep rest with _ | ⟨g, gs⟩
      · exact absurd hs (splitOnChar_ne_nil sep rest)
      · have h2 := ih
        rw [hs] at h2
        simp only [List.length_cons] at h2
        simp only [List.length_cons, List.count_cons]
        simp [h]
        omega

/-- The separator stage of the source on comma-only strings agrees with the
amended comma rule. -/
lemma sepStage_amended (l : List Char) (hc : l.contains ',' = true)
    (hd : l.contains '.' = false) :
    sepStage l =
      (if amendedCommaDecimal l then replaceFirst ',' '.' l else removeAll ',' l) := by
  obtain ⟨b, hb⟩ := dropWhile_first_sep ',' l hc
  have hdecomp : (l.takeWhile (fun c => c ≠ ',')) ++ (',' :: b) = l := by
    rw [← hb]
    exact List.takeWhile_append_dropWhile _ _
  have hat : ∀ c ∈ l.takeWhile (fun c => c ≠ ','), c ≠ ',' := by
    intro c hcm
    have := List.mem_takeWhile_imp hcm
    simpa using this
  have hcnt : l.count ',' = b.count ',' + 1 := by
    have h0 := congrArg (List.count ',') hdecomp
    rw [List.count_append, count_eq_zero_of_all_ne ',' _ hat] at h0
    simp [List.count_cons] at h0
    omega
  unfold sepStage
  rw [hc, hd]
  simp only [Bool.true_and, Bool.and_false, Bool.false_and, Bool.and_true, if_false, if_true]
  unfold amendedCommaDecimal
  rw [hb]
  simp only [List.tail_cons]
  by_cases h1 : l.count ',' = 1
  · have hbz : b.count ',' = 0 := by omega
    have hbne : ∀ c ∈ b, c ≠ ',' := by
      intro c hcm he
      subst he
      exact absurd (List.count_eq_zero.mp hbz) (fun hnm => hnm hcm)
    have hsplit : splitOnChar ',' l = [l.takeWhile (fun c => c ≠ ','), b] := by
      conv_lhs => rw [← hdecomp]
      rw [splitOnChar_sep_append ',' _ _ hat, splitOnChar_nosep ',' b hbne]
    rw [hsplit]
    by_cases hbl : b.length ≤ 2 <;> simp [h1, hbl]
  · have hlen : (splitOnChar ',' l).length ≠ 2 := by
      rw [splitOnChar_length]
      omega
    rcases hs : splitOnChar ',' l with _ | ⟨g1, gs⟩
    · exact absurd hs (splitOnChar_ne_nil ',' l)
    · rcases gs with _ | ⟨g2, gs2⟩
      · simp [h1]
      · rcases gs2 with _ | ⟨g3, gs3⟩
        · exact absurd (by rw [hs]; rfl) hlen
        · simp [h1]

/-- C6 amended: on every amount string whose cleaned form (after currency
stripping and the non-numeric filter) contains a comma but no period, the
parser treats the comma as a decimal separator exactly when the comma is
unique and at most two characters follow it, and as a removed thousands
separator in every other case. -/
theorem c6_amended (cell : String)
    (hc : (cleanedOf cell).contains ',' = true)
    (hd : (cleanedOf cell).contains '.' = false) :
    parseAmountFlexible cell =
      match jsParseFloat (ofChars
        (if amendedCommaDecimal (cleanedOf cell) then replaceFirst ',' '.' (cleanedOf cell)
         else removeAll ',' (cleanedOf cell))) with
      | none => none
      | some a => some (if negMark cell then -qabs a else a) := by
  have hne : cell ≠ "" := fun h => absurd (h ▸ hc) (by decide)
  unfold parseAmountFlexible
  rw [if_neg hne, sepStage_amended _ hc hd]

/-- Witness for the amended C6 at "1234,56": the comma is unique with two
characters after it, so it is the decimal separator and the parse yields
1234.56. -/
theorem c6_amended_witness :
    (parseAmountFlexible "1234,56" =
      match jsParseFloat (ofChars
        (if amendedCommaDecimal (cleanedOf "1234,56") then
          replaceFirst ',' '.' (cleanedOf "1234,56")
         else removeAll ',' (cleanedOf "1234,56"))) with
      | none => none
      | some a => some (if negMark "1234,56" then -qabs a else a)) ∧
    parseAmountFlexible "1234,56" = some (Rat.divInt 123456 100) :=
  ⟨c6_amended "1234,56" (by decide) (by decide), by decide⟩

/-! ## Claim C10 -/

/-- C10 as stated is false on the code: "0 D" carries a standalone D and
parses, but the parse result is `-Math.abs(0)`, which is zero, not negative
(so it does not classify as expense via the sign rule). -/
theorem c10_claim_counterexample :
    hasStandaloneD "0 D" = true ∧
    parseAmountFlexible "0 D" = some 0 ∧
    ¬(0 : ℚ) < 0 := by
  refine ⟨by decide, by decide, by simp⟩

lemma stdDAux_weaken (l : List Char) (pw : Bool) (h : stdDAux pw l = true) :
    stdDAux false l = true := by
  cases l with
  | nil => simp [stdDAux] at h
  | cons c rest =>
    rw [stdDAux] at h ⊢
    rcases (Bool.or_eq_true _ _).mp h with h1 | h2
    · rcases (Bool.and_eq_true _ _).mp h1 with ⟨h3, h4⟩
      rcases (Bool.and_eq_true _ _).mp h3 with ⟨h5, _⟩
      rw [Bool.or_eq_true]
      exact Or.inl (by simp [h5, h4])
    · rw [Bool.or_eq_true]
      exact Or.inr h2

lemma stdDAux_dropWhile (p : Char → Bool) (hp : ∀ c, p c = true → isDChar c = false) :
    ∀ l, stdDAux false l = true → stdDAux false (l.dropWhile p) = true := by
  intro l
  induction l with
  | nil => intro h; simpa using h
  | cons c rest ih =>
    intro h
    rw [List.dropWhile_cons]
    by_cases hc : p c = true
    · rw [if_pos hc]
      apply ih
      rw [stdDAux] at h
      rcases (Bool.or_eq_true _ _).mp h with h1 | h2
      · rw [hp c hc] at h1
        simp at h1
      · exact stdDAux_weaken rest (wordChar c) h2
    · rw [if_neg hc]
      exact h

lemma stdDAux_noD : ∀ (t : List Char), (∀ c ∈ t, isDChar c = false) →
    ∀ pw, stdDAux pw t = false := by
  intro t
  induction t with
  | nil => intro _ _; rfl
  | cons c rest ih =>
    intro ht pw
    rw [stdDAux, ht c (by simp), ih (fun x hx => ht x (by simp [hx])) (wordChar c)]
    rfl

lemma stdDAux_append_right (t : List Char) (ht : ∀ c ∈ t, isDChar c = false) :
    ∀ (l : List Char) (pw : Bool), stdDAux pw (l ++ t) = true → stdDAux pw l = true := by
  intro l
  induction l with
  | nil =>
    intro pw h
    rw [List.nil_append] at h
    rw [stdDAux_noD t ht pw] at h
    exact absurd h (by simp)
  | cons c l' ih =>
    intro pw h
    rw [List.cons_append, stdDAux] at h
    rw [stdDAux]
    rcases (Bool.or_eq_true _ _).mp h with h1 | h2
    · rcases (Bool.and_eq_true _ _).mp h1 with ⟨h3, h4⟩
      rw [Bool.or_eq_true]
      left
      rw [Bool.and_eq_true]
      refine ⟨h3, ?_⟩
      cases l' with
      | nil => simp [headWord]
      | cons c2 l'' =>
        rw [List.cons_append] at h4
        exact h4
    · rw [Bool.or_eq_true]
      exact Or.inr (ih (wordChar c) h2)

lemma stdDAux_dropEnd (p : Char → Bool) (hp : ∀ c, p c = true → isDChar c = false)
    (l : List Char) (h : stdDAux false l = true) :
    stdDAux false ((l.reverse.dropWhile p).reverse) = true := by
  have e1 : List.takeWhile p l.reverse ++ List.dropWhile p l.reverse = l.reverse :=
    List.takeWhile_append_dropWhile _ _
  have hdecomp : (l.reverse.dropWhile p).reverse ++ (l.reverse.takeWhile p).reverse = l := by
    rw [← List.reverse_append, e1, List.reverse_reverse]
  have ht : ∀ c ∈ (l.reverse.takeWhile p).reverse, isDChar c = false := by
    intro c hc
    rw [List.mem_reverse] at hc
    exact hp c (List.mem_takeWhile_imp hc)
  apply stdDAux_append_right _ ht
  rw [hdecomp]
  exact h

lemma ws_no_D (c : Char) (hc : jsWs c = true) : isDChar c = false := by
  unfold jsWs at hc
  simp only [Bool.or_eq_true, decide_eq_true_eq] at hc
  rcases hc with ((((((h | h) | h) | h) | h) | h) | h) <;> subst h <;> decide

lemma cur_no_D (c : Char) (hc : curChar c = true) : isDChar c = false := by
  unfold curChar at hc
  simp only [Bool.or_eq_true, decide_eq_true_eq] at hc
  rcases hc with ((((((h | h) | h) | h) | h) | h) | h)
  · subst h; decide
  · subst h; decide
  · subst h; decide
  · subst h; decide
  · subst h; decide
  · subst h; decide
  · exact ws_no_D c h

/-- A standalone D in the raw cell survives the trim and the currency strip:
the stripped characters are never a D, and removing a non-word neighbour
leaves the word boundary in place. -/
lemma negMark_of_standaloneD (s : String) (h : hasStandaloneD s = true) :
    negMark s = true := by
  unfold hasStandaloneD at h
  have h1 : stdDAux false ((chars s).dropWhile jsWs) = true :=
    stdDAux_dropWhile jsWs ws_no_D _ h
  have h2 : stdDAux false (jsTrimChars (chars s)) = true := by
    unfold jsTrimChars
    exact stdDAux_dropEnd jsWs ws_no_D _ h1
  have h3 : stdDAux false ((jsTrimChars (chars s)).dropWhile curChar) = true :=
    stdDAux_dropWhile curChar cur_no_D _ h2
  have h4 : stdDAux false (strippedOf s) = true := by
    unfold strippedOf stripCurrencyChars
    exact stdDAux_dropEnd curChar cur_no_D _ h3
  unfold negMark
  simp [h4]

lemma qabs_nonneg (a : ℚ) : 0 ≤ qabs a := by
  unfold qabs
  split_ifs with h
  · linarith
  · exact not_lt.mp h

/-- C10 amended: whenever an input cell contains the letter D as a standalone
word and the flexible amount parser returns a number, that number is
non-positive — it is the negated absolute value of the parsed magnitude,
hence strictly negative except when the magnitude is zero. -/
theorem c10_amended (s : String) (hD : hasStandaloneD s = true) :
    ∀ q : ℚ, parseAmountFlexible s = some q → q ≤ 0 := by
  intro q h
  have hneg := negMark_of_standaloneD s hD
  unfold parseAmountFlexible at h
  split at h
  · exact absurd h (by simp)
  · rcases hpf : jsParseFloat (ofChars (sepStage (cleanedOf s))) with _ | a
    · rw [hpf] at h
      simp at h
    · rw [hpf] at h
      simp [hneg] at h
      rw [← h]
      exact neg_nonpos_of_nonneg (qabs_nonneg a)

/-- Witness for the amended C10: "500 D" has a standalone D and parses to
-500, which is non-positive. -/
theorem c10_amended_witness :
    hasStandaloneD "500 D" = true ∧
    parseAmountFlexible "500 D" = some (-500) ∧
    (-500 : ℚ) ≤ 0 :=
  ⟨by decide, by decide, c10_amended "500 D" (by decide) (-500) (by decide)⟩

end ChurchFlow
